import Mathlib

/-!
Verification of the process-local synchronization subsystem
(`os/src/syscall/sync.rs`): mutex/semaphore/condvar tables, per-task
need/allocation accounting, and the Banker-style deadlock detector run by
`sys_mutex_lock` and `sys_semaphore_down`.

The Rust code is shallowly embedded: each syscall becomes a pure function on
an explicit `ProcState`.  Machine integers (`usize`) are modelled as `Nat`
with checked arithmetic: a subtraction that would underflow, an
out-of-range direct index, or an `unwrap` of a missing table entry makes
the embedded syscall return `none` (the Rust code panics there in a
checked build).  The `adjust_*` accounting helpers are defined outside the
provided source tree, so they are modelled from the spec (see `adjust`).
-/

namespace SyncSys

/-- Per-task accounting vectors, mirroring the fields of the task inner
structure used by `sync.rs` (`m_need`, `m_allocation`, `s_need`,
`s_allocation`). -/
structure TaskAcct where
  m_need : List Nat
  m_allocation : List Nat
  s_need : List Nat
  s_allocation : List Nat
deriving DecidableEq

/-- Per-process state touched by `sync.rs`: the class-level available
vectors, the detection flag, the task list, and the three resource tables.
A mutex table entry stores the `blocking` creation flag; a semaphore entry
stores its creation count. -/
structure ProcState where
  m_available : List Nat
  s_available : List Nat
  use_dead_lock : Bool
  tasks : List TaskAcct
  mutex_list : List (Option Bool)
  semaphore_list : List (Option Nat)
  condvar_list : List (Option Unit)
deriving DecidableEq

/-- Result of an embedded syscall: the `isize` return value, whether the
underlying mechanism (`lock()` / `unlock()` / `up()` / `down()`) was
invoked on this path, and the process state at return. -/
structure SysResult where
  ret : Int
  invoked : Bool
  state : ProcState
deriving DecidableEq

/-- Modelled from the spec: the `adjust_m_need` / `adjust_m_allocation` /
`adjust_s_need` / `adjust_s_allocation` / `adjust_m_available` /
`adjust_s_available` methods are defined in the task/process modules,
which are not part of the provided source tree.  Per the spec (vectors are
"resized (extended with zero)" to keep index alignment, and the increment
of an entry is "adjust(index, delta)"), `adjust v i d` extends `v` with
zeros so that index `i` exists, then adds `d` to entry `i`. -/
def adjust (v : List Nat) (i d : Nat) : List Nat :=
  let w := v ++ List.replicate (i + 1 - v.length) 0
  w.set i (w.getD i 0 + d)

/-- An all-zero task-accounting record, used as the `getD` default. -/
def noTask : TaskAcct := ⟨[], [], [], []⟩

/-! ### Basic list lemmas -/

theorem getD_replicate_zero (k j : Nat) : (List.replicate k (0 : Nat)).getD j 0 = 0 := by
  induction k generalizing j with
  | zero => simp
  | succ k ih =>
    cases j with
    | zero => simp [List.replicate_succ]
    | succ j => simpa [List.replicate_succ, List.getD_cons_succ] using ih j

theorem getD_append_replicate_zero (v : List Nat) (k j : Nat) :
    (v ++ List.replicate k 0).getD j 0 = v.getD j 0 := by
  induction v generalizing j with
  | nil => simpa using getD_replicate_zero k j
  | cons a v ih =>
    cases j with
    | zero => simp [List.getD_cons_zero]
    | succ j => simpa [List.getD_cons_succ] using ih j

theorem getD_set_self {α : Type} (l : List α) (i : Nat) (x d : α) (h : i < l.length) :
    (l.set i x).getD i d = x := by
  induction l generalizing i with
  | nil => simp at h
  | cons a l ih =>
    cases i with
    | zero => simp
    | succ i =>
      simp only [List.set_cons_succ, List.getD_cons_succ]
      exact ih i (by simpa using h)

theorem getD_set_ne {α : Type} (l : List α) (i : Nat) (x d : α) (j : Nat) (h : j ≠ i) :
    (l.set i x).getD j d = l.getD j d := by
  induction l generalizing i j with
  | nil => simp
  | cons a l ih =>
    cases i with
    | zero =>
      cases j with
      | zero => exact absurd rfl h
      | succ j => simp
    | succ i =>
      cases j with
      | zero => simp
      | succ j =>
        simp only [List.set_cons_succ, List.getD_cons_succ]
        exact ih i j (fun hh => h (by simpa using hh))

theorem set_getD_self {α : Type} (l : List α) (i : Nat) (d : α) (h : i < l.length) :
    l.set i (l.getD i d) = l := by
  induction l generalizing i with
  | nil => simp at h
  | cons a l ih =>
    cases i with
    | zero => simp
    | succ i =>
      simp only [List.set_cons_succ, List.getD_cons_succ, List.cons.injEq, true_and]
      exact ih i (by simpa using h)

theorem getD_eq_default_of_le {α : Type} (l : List α) (i : Nat) (d : α) (h : l.length ≤ i) :
    l.getD i d = d := by
  induction l generalizing i with
  | nil => simp
  | cons a l ih =>
    cases i with
    | zero => simp at h
    | succ i =>
      simp only [List.getD_cons_succ]
      exact ih i (by simpa using h)

theorem ext_getD (l1 l2 : List Nat) (h : l1.length = l2.length)
    (he : ∀ j, l1.getD j 0 = l2.getD j 0) : l1 = l2 := by
  induction l1 generalizing l2 with
  | nil => cases l2 with
    | nil => rfl
    | cons b l2 => simp at h
  | cons a l1 ih =>
    cases l2 with
    | nil => simp at h
    | cons b l2 =>
      have h0 := he 0
      simp only [List.getD_cons_zero] at h0
      subst h0
      simp only [List.cons.injEq, true_and]
      exact ih l2 (by simpa using h) (fun j => by simpa [List.getD_cons_succ] using he (j + 1))

/-! ### Lemmas about `adjust` -/

theorem adjust_length (v : List Nat) (i d : Nat) :
    (adjust v i d).length = max v.length (i + 1) := by
  simp only [adjust, List.length_set, List.length_append, List.length_replicate]
  omega

theorem length_le_adjust (v : List Nat) (i d : Nat) : i + 1 ≤ (adjust v i d).length := by
  rw [adjust_length]; omega

theorem getD_adjust_self (v : List Nat) (i d : Nat) :
    (adjust v i d).getD i 0 = v.getD i 0 + d := by
  simp only [adjust]
  rw [getD_set_self, getD_append_replicate_zero]
  simp only [List.length_append, List.length_replicate]
  omega

theorem getD_adjust_ne (v : List Nat) (i d j : Nat) (h : j ≠ i) :
    (adjust v i d).getD j 0 = v.getD j 0 := by
  simp only [adjust]
  rw [getD_set_ne _ _ _ _ _ h, getD_append_replicate_zero]

theorem getD_adjust_zero (v : List Nat) (i j : Nat) :
    (adjust v i 0).getD j 0 = v.getD j 0 := by
  rcases eq_or_ne j i with rfl | h
  · rw [getD_adjust_self, Nat.add_zero]
  · exact getD_adjust_ne v i 0 j h

theorem adjust_zero_eq_append (v : List Nat) (i : Nat) :
    adjust v i 0 = v ++ List.replicate (i + 1 - v.length) 0 := by
  simp only [adjust, Nat.add_zero]
  apply set_getD_self
  simp only [List.length_append, List.length_replicate]
  omega

/-! ### The deadlock detector (embedded from the source)

The scan loops of `sys_mutex_lock` (lines 96-141) and `sys_semaphore_down`
(lines 284-327) are textually identical up to the class (`m_` vs `s_`)
field names, so they are embedded once, over a class view `Acct` of one
task's (need, allocation) pair.  `checkNeedAux` is the source's
`work.iter().enumerate().any(...)` (short-circuiting, with its
`adjust_*_need(i, 0)` side effects); `addAllocAux` is the
`work.iter_mut().enumerate().for_each(...)` release simulation;
`onePass` is one ascending `for task_id in 0..task_len` pass and
`scanLoop` the outer `loop { ... }`, which runs at most `tasks + 1`
passes because every repeated pass has marked a new task finished. -/

/-- One task's (need, allocation) pair for one resource class. -/
structure Acct where
  need : List Nat
  alloc : List Nat
deriving DecidableEq

/-- State of the scan: the per-pass progress flag, the finish vector, the
work vector, the (possibly re-padded) per-task accounting, and the order
in which tasks were marked finished. -/
structure ScanSt where
  found : Bool
  finish : List Bool
  work : List Nat
  accts : List Acct
  order : List Nat
deriving DecidableEq

/-- Source: `work.iter().enumerate().any(|(id, &remain)| {
task_inner.adjust_*_need(id, 0); task_inner.*_need[id] > remain })` —
short-circuits at the first resource index whose need exceeds work,
padding the need vector as it goes. -/
def checkNeedAux : Nat → Nat → List Nat → List Nat → Bool × List Nat
  | 0, _, need, _ => (false, need)
  | n + 1, i, need, work =>
    if work.getD i 0 < (adjust need i 0).getD i 0 then (true, adjust need i 0)
    else checkNeedAux n (i + 1) (adjust need i 0) work

/-- Source: `work.iter_mut().enumerate().for_each(|(pos, ptr)| {
task_inner.adjust_*_allocation(pos, 0); *ptr += task_inner.*_allocation[pos] })`. -/
def addAllocAux : Nat → Nat → List Nat → List Nat → List Nat × List Nat
  | 0, _, alloc, work => (alloc, work)
  | n + 1, i, alloc, work =>
    addAllocAux n (i + 1) (adjust alloc i 0)
      (work.set i (work.getD i 0 + (adjust alloc i 0).getD i 0))

/-- One ascending-index pass over the given task ids (source: the `for
task_id in 0..task_len` body inside `loop`). -/
def onePass : List Nat → ScanSt → ScanSt
  | [], s => s
  | t :: rest, s =>
    if s.finish.getD t true then onePass rest s
    else if (checkNeedAux s.work.length 0 (s.accts.getD t ⟨[], []⟩).need s.work).1 then
      onePass rest
        { s with
            accts := s.accts.set t
              ⟨(checkNeedAux s.work.length 0 (s.accts.getD t ⟨[], []⟩).need s.work).2,
               (s.accts.getD t ⟨[], []⟩).alloc⟩ }
    else
      onePass rest
        { found := true
          finish := s.finish.set t true
          work := (addAllocAux s.work.length 0 (s.accts.getD t ⟨[], []⟩).alloc s.work).2
          accts := s.accts.set t
            ⟨(checkNeedAux s.work.length 0 (s.accts.getD t ⟨[], []⟩).need s.work).2,
             (addAllocAux s.work.length 0 (s.accts.getD t ⟨[], []⟩).alloc s.work).1⟩
          order := s.order ++ [t] }

/-- Source: `loop { let mut found = false; for ... ; if !found { break; } }`. -/
def scanLoop : Nat → List Nat → ScanSt → ScanSt
  | 0, _, s => s
  | fuel + 1, ids, s =>
    if (onePass ids { s with found := false }).found then
      scanLoop fuel ids (onePass ids { s with found := false })
    else onePass ids { s with found := false }

/-- The whole detector: `work` starts as a clone of the class's available
vector and `finish` starts all-false (source lines 98-100 / 285-287). -/
def detect (avail : List Nat) (accts : List Acct) : ScanSt :=
  scanLoop (accts.length + 1) (List.range accts.length)
    ⟨false, List.replicate accts.length false, avail, accts, []⟩

/-! ### Class views of a task -/

/-- Mutex-class view of a task's accounting. -/
def mView (t : TaskAcct) : Acct := ⟨t.m_need, t.m_allocation⟩

/-- Semaphore-class view of a task's accounting. -/
def sView (t : TaskAcct) : Acct := ⟨t.s_need, t.s_allocation⟩

/-- Write a mutex-class view back into a task. -/
def mPut (t : TaskAcct) (a : Acct) : TaskAcct :=
  { t with m_need := a.need, m_allocation := a.alloc }

/-- Write a semaphore-class view back into a task. -/
def sPut (t : TaskAcct) (a : Acct) : TaskAcct :=
  { t with s_need := a.need, s_allocation := a.alloc }

/-- Need entry `i` of task `t` in a class view list (0 when out of range,
matching the lazily-extended-with-zero representation). -/
def acctNeed (accts : List Acct) (t i : Nat) : Nat :=
  (accts.getD t ⟨[], []⟩).need.getD i 0

/-- Allocation entry `i` of task `t` in a class view list. -/
def acctAlloc (accts : List Acct) (t i : Nat) : Nat :=
  (accts.getD t ⟨[], []⟩).alloc.getD i 0

/-! ### The syscalls (embedded from the source) -/

/-- State of the process after the caller's speculative
`adjust_m_need(mutex_id, 1)` at the top of `sys_mutex_lock`. -/
def mutexAdjState (st : ProcState) (t0 : TaskAcct) (tid mid : Nat) : ProcState :=
  { st with tasks := st.tasks.set tid { t0 with m_need := adjust t0.m_need mid 1 } }

/-- State of the process after the caller's speculative
`adjust_s_need(sem_id, 1)` at the top of `sys_semaphore_down`. -/
def semAdjState (st : ProcState) (t0 : TaskAcct) (tid sid : Nat) : ProcState :=
  { st with tasks := st.tasks.set tid { t0 with s_need := adjust t0.s_need sid 1 } }

/-- State after the detector scan of `sys_mutex_lock` wrote back the
(possibly re-padded) per-task mutex-class accounting. -/
def mScanState (st : ProcState) : ProcState :=
  { st with tasks := List.zipWith mPut st.tasks (detect st.m_available (st.tasks.map mView)).accts }

/-- State after the detector scan of `sys_semaphore_down` wrote back the
(possibly re-padded) per-task semaphore-class accounting. -/
def sScanState (st : ProcState) : ProcState :=
  { st with tasks := List.zipWith sPut st.tasks (detect st.s_available (st.tasks.map sView)).accts }

/-- Source lines 136-138 / `task_inner.m_need[mutex_id] -= 1; return -0xDEAD;`
(checked: out-of-range index or zero value is a panic, i.e. `none`). -/
def mutexRollback (st : ProcState) (tid mid : Nat) : Option SysResult :=
  match st.tasks.get? tid with
  | none => none
  | some t =>
    match t.m_need.get? mid with
    | none => none
    | some 0 => none
    | some (n + 1) =>
      some ⟨-0xDEAD, false,
        { st with tasks := st.tasks.set tid { t with m_need := t.m_need.set mid n } }⟩

/-- Source lines 143-156: the unconditional commit of `sys_mutex_lock`
(`m_need -= 1; m_allocation += 1; m_available -= 1`), then the
`mutex_list[mutex_id].as_ref().unwrap()` clone and `mutex.lock()`. -/
def mutexCommit (st : ProcState) (tid mid : Nat) : Option SysResult :=
  match st.tasks.get? tid with
  | none => none
  | some t =>
    match t.m_need.get? mid with
    | none => none
    | some 0 => none
    | some (n + 1) =>
      match t.m_allocation.get? mid with
      | none => none
      | some a =>
        match st.m_available.get? mid with
        | none => none
        | some 0 => none
        | some (v + 1) =>
          match st.mutex_list.getD mid none with
          | none => none
          | some _ =>
            some ⟨0, true,
              { st with
                  tasks := st.tasks.set tid
                    { t with m_need := t.m_need.set mid n,
                             m_allocation := t.m_allocation.set mid (a + 1) }
                  m_available := st.m_available.set mid v }⟩

/-- `sys_mutex_lock` (source lines 74-157).  The caller `tid` increments
its need, the detector runs when `use_dead_lock` is set (the source's
doubled `if` collapses to one), and the request is rolled back with
`-0xDEAD` when some task remains unfinished, else committed. -/
def sys_mutex_lock (st : ProcState) (tid mid : Nat) : Option SysResult :=
  match st.tasks.get? tid with
  | none => none
  | some t0 =>
    if (mutexAdjState st t0 tid mid).use_dead_lock then
      if (detect (mutexAdjState st t0 tid mid).m_available
            ((mutexAdjState st t0 tid mid).tasks.map mView)).finish.any
          (fun x => x == false) then
        mutexRollback (mScanState (mutexAdjState st t0 tid mid)) tid mid
      else mutexCommit (mScanState (mutexAdjState st t0 tid mid)) tid mid
    else mutexCommit (mutexAdjState st t0 tid mid) tid mid

/-- `sys_mutex_unlock` (source lines 159-188): `m_available += 1;
m_allocation -= 1`, then clone the table entry and `mutex.unlock()`. -/
def sys_mutex_unlock (st : ProcState) (tid mid : Nat) : Option SysResult :=
  match st.tasks.get? tid with
  | none => none
  | some t =>
    match st.m_available.get? mid with
    | none => none
    | some v =>
      match t.m_allocation.get? mid with
      | none => none
      | some 0 => none
      | some (a + 1) =>
        match st.mutex_list.getD mid none with
        | none => none
        | some _ =>
          some ⟨0, true,
            { st with
                m_available := st.m_available.set mid (v + 1)
                tasks := st.tasks.set tid { t with m_allocation := t.m_allocation.set mid a } }⟩

/-- Source lines 321-325: `task_inner.s_need[sem_id] -= 1; return -0xDEAD;`. -/
def semRollback (st : ProcState) (tid sid : Nat) : Option SysResult :=
  match st.tasks.get? tid with
  | none => none
  | some t =>
    match t.s_need.get? sid with
    | none => none
    | some 0 => none
    | some (n + 1) =>
      some ⟨-0xDEAD, false,
        { st with tasks := st.tasks.set tid { t with s_need := t.s_need.set sid n } }⟩

/-- Source lines 329-344: the commit of `sys_semaphore_down`, which is
guarded by `if process_inner.s_available[sem_id] > 0`; when the guard
fails nothing is written, and either way the table entry is cloned and
`sem.down()` invoked. -/
def semCommit (st : ProcState) (tid sid : Nat) : Option SysResult :=
  match st.tasks.get? tid with
  | none => none
  | some t =>
    match st.s_available.get? sid with
    | none => none
    | some 0 =>
      match st.semaphore_list.getD sid none with
      | none => none
      | some _ => some ⟨0, true, st⟩
    | some (v + 1) =>
      match t.s_need.get? sid with
      | none => none
      | some 0 => none
      | some (n + 1) =>
        match st.semaphore_list.getD sid none with
        | none => none
        | some _ =>
          some ⟨0, true,
            { st with
                tasks := st.tasks.set tid
                  { t with s_need := t.s_need.set sid n,
                           s_allocation := adjust t.s_allocation sid 1 }
                s_available := st.s_available.set sid v }⟩

/-- `sys_semaphore_down` (source lines 260-345). -/
def sys_semaphore_down (st : ProcState) (tid sid : Nat) : Option SysResult :=
  match st.tasks.get? tid with
  | none => none
  | some t0 =>
    if (semAdjState st t0 tid sid).use_dead_lock then
      if (detect (semAdjState st t0 tid sid).s_available
            ((semAdjState st t0 tid sid).tasks.map sView)).finish.any
          (fun x => x == false) then
        semRollback (sScanState (semAdjState st t0 tid sid)) tid sid
      else semCommit (sScanState (semAdjState st t0 tid sid)) tid sid
    else semCommit (semAdjState st t0 tid sid) tid sid

/-- `sys_semaphore_up` (source lines 230-258): clone the table entry,
`s_available += 1`, `s_allocation -= 1`, then `sem.up()`. -/
def sys_semaphore_up (st : ProcState) (tid sid : Nat) : Option SysResult :=
  match st.semaphore_list.getD sid none with
  | none => none
  | some _ =>
    match st.s_available.get? sid with
    | none => none
    | some v =>
      match st.tasks.get? tid with
      | none => none
      | some t =>
        match t.s_allocation.get? sid with
        | none => none
        | some 0 => none
        | some (a + 1) =>
          some ⟨0, true,
            { st with
                s_available := st.s_available.set sid (v + 1)
                tasks := st.tasks.set tid { t with s_allocation := t.s_allocation.set sid a } }⟩

/-- Source: `.iter().enumerate().find(|(_, item)| item.is_none()).map(|(id, _)| id)`. -/
def findNone {α : Type} : List (Option α) → Option Nat
  | [] => none
  | none :: _ => some 0
  | some _ :: rest => (findNone rest).map (fun i => i + 1)

/-- Source lines 65-70 / 221-226: zero-initialize every live task's
need/allocation entry for the new mutex-class resource id. -/
def initTasksM (tasks : List TaskAcct) (i : Nat) : List TaskAcct :=
  tasks.map (fun t =>
    { t with m_allocation := adjust t.m_allocation i 0, m_need := adjust t.m_need i 0 })

/-- Semaphore-class analogue of `initTasksM`. -/
def initTasksS (tasks : List TaskAcct) (i : Nat) : List TaskAcct :=
  tasks.map (fun t =>
    { t with s_allocation := adjust t.s_allocation i 0, s_need := adjust t.s_need i 0 })

/-- The id chosen by `sys_mutex_create`: the first empty slot, else the
index one past the end. -/
def mutexSlot (st : ProcState) : Nat :=
  match findNone st.mutex_list with
  | some i => i
  | none => st.mutex_list.length

/-- `sys_mutex_create` (source lines 26-72): install into the first empty
slot or append, `adjust_m_available(res, 1)`, and zero the accounting
entry of every live task. -/
def sys_mutex_create (st : ProcState) (blocking : Bool) : Int × ProcState :=
  ((mutexSlot st : Int),
    { st with
        mutex_list :=
          match findNone st.mutex_list with
          | some i => st.mutex_list.set i (some blocking)
          | none => st.mutex_list ++ [some blocking]
        m_available := adjust st.m_available (mutexSlot st) 1
        tasks := initTasksM st.tasks (mutexSlot st) })

/-- The id chosen by `sys_semaphore_create`: the first empty slot, else
the index one past the end. -/
def semSlot (st : ProcState) : Nat :=
  match findNone st.semaphore_list with
  | some i => i
  | none => st.semaphore_list.length

/-- `sys_semaphore_create` (source lines 190-228). -/
def sys_semaphore_create (st : ProcState) (res_count : Nat) : Int × ProcState :=
  ((semSlot st : Int),
    { st with
        semaphore_list :=
          match findNone st.semaphore_list with
          | some i => st.semaphore_list.set i (some res_count)
          | none => st.semaphore_list ++ [some res_count]
        s_available := adjust st.s_available (semSlot st) res_count
        tasks := initTasksS st.tasks (semSlot st) })

/-- The id chosen by `sys_condvar_create`. -/
def condvarSlot (st : ProcState) : Nat :=
  match findNone st.condvar_list with
  | some i => i
  | none => st.condvar_list.length

/-- `sys_condvar_create` (source lines 347-377): table insertion only, no
accounting side effects. -/
def sys_condvar_create (st : ProcState) : Int × ProcState :=
  ((condvarSlot st : Int),
    { st with
        condvar_list :=
          match findNone st.condvar_list with
          | some i => st.condvar_list.set i (some ())
          | none => st.condvar_list ++ [some ()] })

/-- `sys_enable_deadlock_detect` (source lines 422-430). -/
def sys_enable_deadlock_detect (st : ProcState) (enabled : Nat) : Int × ProcState :=
  if enabled = 1 then (0, { st with use_dead_lock := true })
  else if enabled = 0 then (0, { st with use_dead_lock := false })
  else (-1, st)

/-! ### Textbook Banker's safety test, modelled from the spec

These definitions follow the spec's words (spec section 4.2, steps 2-4 and
the claim text), independently of the source's padding side effects, and
are compared with the embedded detector.  Task accounting is given as
plain functions `needs t i` / `allocs t i`. -/

/-- Modelled from the spec: "test whether need[t][*] <= work[*]
component-wise for every resource index". -/
def specCanFinish (need : Nat → Nat) (work : List Nat) : Bool :=
  decide (∀ i, i < work.length → need i ≤ work.getD i 0)

/-- Modelled from the spec: "add allocation[t][*] into work[*]". -/
def specAddWork (work : List Nat) (alloc : Nat → Nat) : List Nat :=
  (List.range work.length).map (fun i => work.getD i 0 + alloc i)

/-- State of the textbook safety test: progress flag, finish vector, work
vector, and the order in which tasks were marked finished. -/
structure SpecSt where
  found : Bool
  finish : List Bool
  work : List Nat
  order : List Nat
deriving DecidableEq

/-- Modelled from the spec: one pass over the unfinished tasks in
ascending index order, marking a task finished and releasing its
allocation into work exactly when its need is component-wise at most
work. -/
def specPass (needs allocs : Nat → Nat → Nat) : List Nat → SpecSt → SpecSt
  | [], s => s
  | t :: rest, s =>
    if s.finish.getD t true then specPass needs allocs rest s
    else if specCanFinish (needs t) s.work then
      specPass needs allocs rest
        ⟨true, s.finish.set t true, specAddWork s.work (allocs t), s.order ++ [t]⟩
    else specPass needs allocs rest s

/-- Modelled from the spec: repeat passes while progress is made. -/
def specLoop (needs allocs : Nat → Nat → Nat) (ids : List Nat) : Nat → SpecSt → SpecSt
  | 0, s => s
  | fuel + 1, s =>
    if (specPass needs allocs ids { s with found := false }).found then
      specLoop needs allocs ids fuel (specPass needs allocs ids { s with found := false })
    else specPass needs allocs ids { s with found := false }

/-- Modelled from the spec: the whole textbook safety test on `n` tasks,
with work a copy of available and finish all-false. -/
def specRun (needs allocs : Nat → Nat → Nat) (n : Nat) (avail : List Nat) : SpecSt :=
  specLoop needs allocs (List.range n) (n + 1) ⟨false, List.replicate n false, avail, []⟩

/-- Projection of the embedded scan state onto the spec-level state. -/
def toSpec (s : ScanSt) : SpecSt := ⟨s.found, s.finish, s.work, s.order⟩

/-! ### Lemmas: the need check -/

theorem checkNeedAux_pad (n : Nat) : ∀ (i : Nat) (need work : List Nat),
    ∃ k, (checkNeedAux n i need work).2 = need ++ List.replicate k 0 := by
  induction n with
  | zero => intro i need work; exact ⟨0, by simp [checkNeedAux]⟩
  | succ n ih =>
    intro i need work
    simp only [checkNeedAux]
    by_cases hb : work.getD i 0 < (adjust need i 0).getD i 0
    · simp only [hb, if_true]
      exact ⟨i + 1 - need.length, adjust_zero_eq_append need i⟩
    · simp only [hb, if_false]
      obtain ⟨k2, hk2⟩ := ih (i + 1) (adjust need i 0) work
      refine ⟨(i + 1 - need.length) + k2, ?_⟩
      rw [hk2, adjust_zero_eq_append, List.append_assoc, List.replicate_add]

theorem checkNeedAux_snd_getD (n i : Nat) (need work : List Nat) (j : Nat) :
    (checkNeedAux n i need work).2.getD j 0 = need.getD j 0 := by
  obtain ⟨k, hk⟩ := checkNeedAux_pad n i need work
  rw [hk, getD_append_replicate_zero]

theorem checkNeedAux_fst (n : Nat) : ∀ (i : Nat) (need work : List Nat),
    (checkNeedAux n i need work).1 =
      !(decide (∀ j, i ≤ j → j < i + n → need.getD j 0 ≤ work.getD j 0)) := by
  induction n with
  | zero =>
    intro i need work
    have h0 : (checkNeedAux 0 i need work).1 = false := rfl
    rw [h0]
    have hall : ∀ j, i ≤ j → j < i + 0 → need.getD j 0 ≤ work.getD j 0 := by
      intro j h1 h2; omega
    rw [decide_eq_true hall]
    rfl
  | succ n ih =>
    intro i need work
    show (if work.getD i 0 < (adjust need i 0).getD i 0 then (true, adjust need i 0)
      else checkNeedAux n (i + 1) (adjust need i 0) work).1 = _
    by_cases hb : work.getD i 0 < (adjust need i 0).getD i 0
    · rw [if_pos hb]
      rw [getD_adjust_zero] at hb
      have hne : ¬ (∀ j, i ≤ j → j < i + (n + 1) → need.getD j 0 ≤ work.getD j 0) := by
        intro hall
        exact absurd (hall i (le_refl i) (by omega)) (by omega)
      rw [decide_eq_false hne]
      rfl
    · rw [if_neg hb]
      rw [getD_adjust_zero] at hb
      rw [ih (i + 1) (adjust need i 0) work]
      congr 1
      rw [decide_eq_decide]
      constructor
      · intro hall j h1 h2
        rcases Nat.eq_or_lt_of_le h1 with rfl | hgt
        · omega
        · have hj := hall j (by omega) (by omega)
          rwa [getD_adjust_zero] at hj
      · intro hall j h1 h2
        rw [getD_adjust_zero]
        exact hall j (by omega) (by omega)

theorem checkNeed_fst (need work : List Nat) :
    (checkNeedAux work.length 0 need work).1 =
      !specCanFinish (fun j => need.getD j 0) work := by
  rw [checkNeedAux_fst]
  show _ = !(decide _)
  congr 1
  rw [decide_eq_decide]
  constructor
  · intro h j hj; exact h j (Nat.zero_le j) (by omega)
  · intro h j h1 h2; exact h j (by omega)

/-! ### Lemmas: the release simulation -/

theorem addAllocAux_pad (n : Nat) : ∀ (i : Nat) (alloc work : List Nat),
    ∃ k, (addAllocAux n i alloc work).1 = alloc ++ List.replicate k 0 := by
  induction n with
  | zero => intro i alloc work; exact ⟨0, by simp [addAllocAux]⟩
  | succ n ih =>
    intro i alloc work
    obtain ⟨k2, hk2⟩ := ih (i + 1) (adjust alloc i 0)
      (work.set i (work.getD i 0 + (adjust alloc i 0).getD i 0))
    refine ⟨(i + 1 - alloc.length) + k2, ?_⟩
    show (addAllocAux n (i + 1) (adjust alloc i 0)
      (work.set i (work.getD i 0 + (adjust alloc i 0).getD i 0))).1 = _
    rw [hk2, adjust_zero_eq_append, List.append_assoc, List.replicate_add]

theorem addAllocAux_fst_getD (n i : Nat) (alloc work : List Nat) (j : Nat) :
    (addAllocAux n i alloc work).1.getD j 0 = alloc.getD j 0 := by
  obtain ⟨k, hk⟩ := addAllocAux_pad n i alloc work
  rw [hk, getD_append_replicate_zero]

theorem addAllocAux_snd (n : Nat) : ∀ (i : Nat) (alloc work : List Nat),
    i + n = work.length →
    (addAllocAux n i alloc work).2.length = work.length ∧
    ∀ j, (addAllocAux n i alloc work).2.getD j 0 =
      if i ≤ j ∧ j < work.length then work.getD j 0 + alloc.getD j 0
      else work.getD j 0 := by
  induction n with
  | zero =>
    intro i alloc work h
    refine ⟨rfl, fun j => ?_⟩
    rw [if_neg (by omega)]
    rfl
  | succ n ih =>
    intro i alloc work h
    have hi : i < work.length := by omega
    have hlen : (work.set i (work.getD i 0 + (adjust alloc i 0).getD i 0)).length
        = work.length := List.length_set work i _
    obtain ⟨ihlen, ihD⟩ := ih (i + 1) (adjust alloc i 0)
      (work.set i (work.getD i 0 + (adjust alloc i 0).getD i 0)) (by omega)
    constructor
    · show (addAllocAux n (i + 1) (adjust alloc i 0)
        (work.set i (work.getD i 0 + (adjust alloc i 0).getD i 0))).2.length = _
      rw [ihlen, hlen]
    · intro j
      show (addAllocAux n (i + 1) (adjust alloc i 0)
        (work.set i (work.getD i 0 + (adjust alloc i 0).getD i 0))).2.getD j 0 = _
      rw [ihD j, hlen]
      rcases eq_or_ne j i with rfl | hne
      · rw [if_neg (by omega), if_pos (by omega),
          getD_set_self _ _ _ _ hi, getD_adjust_zero]
      · rw [getD_set_ne _ _ _ _ _ hne, getD_adjust_zero]
        by_cases hc : i ≤ j ∧ j < work.length
        · rw [if_pos (by omega), if_pos hc]
        · rw [if_neg (by omega), if_neg hc]

theorem specAddWork_length (work : List Nat) (alloc : Nat → Nat) :
    (specAddWork work alloc).length = work.length := by
  simp [specAddWork]

theorem specAddWork_getD_lt (work : List Nat) (alloc : Nat → Nat) (j : Nat)
    (h : j < work.length) :
    (specAddWork work alloc).getD j 0 = work.getD j 0 + alloc j := by
  rw [List.getD_eq_getElem _ _ (by simpa [specAddWork] using h)]
  simp only [specAddWork, List.getElem_map, List.getElem_range]

theorem addAlloc_spec (alloc work : List Nat) :
    (addAllocAux work.length 0 alloc work).2 = specAddWork work (fun i => alloc.getD i 0) := by
  obtain ⟨hlen, hD⟩ := addAllocAux_snd work.length 0 alloc work (by omega)
  apply ext_getD
  · rw [hlen, specAddWork_length]
  · intro j
    rw [hD j]
    by_cases hj : j < work.length
    · rw [if_pos ⟨Nat.zero_le j, hj⟩, specAddWork_getD_lt _ _ _ hj]
    · rw [if_neg (by omega)]
      have h2 : (specAddWork work (fun i => alloc.getD i 0)).length ≤ j := by
        rw [specAddWork_length]; omega
      rw [getD_eq_default_of_le _ _ _ h2, getD_eq_default_of_le work j 0 (by omega)]

/-! ### Equivalence of the embedded scan with the textbook test -/

theorem onePass_cons (t : Nat) (rest : List Nat) (s : ScanSt) :
    onePass (t :: rest) s =
      if s.finish.getD t true then onePass rest s
      else if (checkNeedAux s.work.length 0 (s.accts.getD t ⟨[], []⟩).need s.work).1 then
        onePass rest
          { s with
              accts := s.accts.set t
                ⟨(checkNeedAux s.work.length 0 (s.accts.getD t ⟨[], []⟩).need s.work).2,
                 (s.accts.getD t ⟨[], []⟩).alloc⟩ }
      else
        onePass rest
          { found := true
            finish := s.finish.set t true
            work := (addAllocAux s.work.length 0 (s.accts.getD t ⟨[], []⟩).alloc s.work).2
            accts := s.accts.set t
              ⟨(checkNeedAux s.work.length 0 (s.accts.getD t ⟨[], []⟩).need s.work).2,
               (addAllocAux s.work.length 0 (s.accts.getD t ⟨[], []⟩).alloc s.work).1⟩
            order := s.order ++ [t] } := rfl

theorem specPass_cons (needs allocs : Nat → Nat → Nat) (t : Nat) (rest : List Nat)
    (fd : Bool) (fin : List Bool) (wk : List Nat) (od : List Nat) :
    specPass needs allocs (t :: rest) ⟨fd, fin, wk, od⟩ =
      if fin.getD t true then specPass needs allocs rest ⟨fd, fin, wk, od⟩
      else if specCanFinish (needs t) wk then
        specPass needs allocs rest
          ⟨true, fin.set t true, specAddWork wk (allocs t), od ++ [t]⟩
      else specPass needs allocs rest ⟨fd, fin, wk, od⟩ := rfl

theorem scanLoop_succ (fuel : Nat) (ids : List Nat) (fd : Bool) (fin : List Bool)
    (wk : List Nat) (ac : List Acct) (od : List Nat) :
    scanLoop (fuel + 1) ids ⟨fd, fin, wk, ac, od⟩ =
      if (onePass ids ⟨false, fin, wk, ac, od⟩).found then
        scanLoop fuel ids (onePass ids ⟨false, fin, wk, ac, od⟩)
      else onePass ids ⟨false, fin, wk, ac, od⟩ := rfl

theorem specLoop_succ (needs allocs : Nat → Nat → Nat) (ids : List Nat) (fuel : Nat)
    (fd : Bool) (fin : List Bool) (wk : List Nat) (od : List Nat) :
    specLoop needs allocs ids (fuel + 1) ⟨fd, fin, wk, od⟩ =
      if (specPass needs allocs ids ⟨false, fin, wk, od⟩).found then
        specLoop needs allocs ids fuel (specPass needs allocs ids ⟨false, fin, wk, od⟩)
      else specPass needs allocs ids ⟨false, fin, wk, od⟩ := rfl

/-- The class-view lists of two accounting states agree entry-wise with
the given view functions. -/
def ViewEq (accts : List Acct) (needs allocs : Nat → Nat → Nat) : Prop :=
  ∀ t i, (accts.getD t ⟨[], []⟩).need.getD i 0 = needs t i ∧
    (accts.getD t ⟨[], []⟩).alloc.getD i 0 = allocs t i

/-- Every task's vectors in `b` are those of `a` extended with zeros. -/
def PadOf (a b : List Acct) : Prop :=
  ∀ t, ∃ k1 k2,
    (b.getD t ⟨[], []⟩).need = (a.getD t ⟨[], []⟩).need ++ List.replicate k1 0 ∧
    (b.getD t ⟨[], []⟩).alloc = (a.getD t ⟨[], []⟩).alloc ++ List.replicate k2 0

theorem PadOf_refl (a : List Acct) : PadOf a a :=
  fun t => ⟨0, 0, by simp, by simp⟩

theorem PadOf_trans {a b c : List Acct} (h1 : PadOf a b) (h2 : PadOf b c) :
    PadOf a c := by
  intro t
  obtain ⟨k1, k2, hn1, ha1⟩ := h1 t
  obtain ⟨k3, k4, hn2, ha2⟩ := h2 t
  exact ⟨k1 + k3, k2 + k4,
    by rw [hn2, hn1, List.append_assoc, List.replicate_add],
    by rw [ha2, ha1, List.append_assoc, List.replicate_add]⟩

theorem onePass_spec (needs allocs : Nat → Nat → Nat) :
    ∀ (ids : List Nat) (s : ScanSt), ViewEq s.accts needs allocs →
    toSpec (onePass ids s) = specPass needs allocs ids ⟨s.found, s.finish, s.work, s.order⟩ ∧
    ViewEq (onePass ids s).accts needs allocs ∧
    (onePass ids s).accts.length = s.accts.length ∧
    PadOf s.accts (onePass ids s).accts := by
  intro ids
  induction ids with
  | nil => intro s hV; exact ⟨rfl, hV, rfl, PadOf_refl s.accts⟩
  | cons t rest ih =>
    intro s hV
    rw [onePass_cons, specPass_cons]
    by_cases hf : s.finish.getD t true
    · rw [if_pos hf, if_pos hf]
      obtain ⟨ih1, ih2, ih3, ih4⟩ := ih s hV
      exact ⟨ih1, ih2, ih3, ih4⟩
    · rw [if_neg hf, if_neg hf]
      have hneed : (fun j => (s.accts.getD t ⟨[], []⟩).need.getD j 0) = needs t := by
        funext j; exact (hV t j).1
      have halloc : (fun j => (s.accts.getD t ⟨[], []⟩).alloc.getD j 0) = allocs t := by
        funext j; exact (hV t j).2
      have hc : (checkNeedAux s.work.length 0 (s.accts.getD t ⟨[], []⟩).need s.work).1
          = !specCanFinish (needs t) s.work := by
        rw [checkNeed_fst, hneed]
      have hVset : ∀ (al : List Nat),
          (∀ i, al.getD i 0 = allocs t i) →
          ViewEq (s.accts.set t
            ⟨(checkNeedAux s.work.length 0 (s.accts.getD t ⟨[], []⟩).need s.work).2, al⟩)
            needs allocs := by
        intro al hal t2 i
        rcases eq_or_ne t2 t with rfl | hne
        · by_cases ht : t2 < s.accts.length
          · rw [getD_set_self _ _ _ _ ht]
            exact ⟨by rw [checkNeedAux_snd_getD]; exact (hV t2 i).1, hal i⟩
          · rw [List.set_eq_of_length_le (by omega)]
            exact hV t2 i
        · rw [getD_set_ne _ _ _ _ _ hne]
          exact hV t2 i
      have hPset : ∀ (al : List Nat) (k2 : Nat),
          al = (s.accts.getD t ⟨[], []⟩).alloc ++ List.replicate k2 0 →
          PadOf s.accts (s.accts.set t
            ⟨(checkNeedAux s.work.length 0 (s.accts.getD t ⟨[], []⟩).need s.work).2, al⟩) := by
        intro al k2 hal t2
        rcases eq_or_ne t2 t with rfl | hne
        · by_cases ht : t2 < s.accts.length
          · rw [getD_set_self _ _ _ _ ht]
            obtain ⟨k1, hk1⟩ := checkNeedAux_pad s.work.length 0
              (s.accts.getD t2 ⟨[], []⟩).need s.work
            exact ⟨k1, k2, hk1, hal⟩
          · rw [List.set_eq_of_length_le (by omega)]
            exact PadOf_refl s.accts t2
        · rw [getD_set_ne _ _ _ _ _ hne]
          exact PadOf_refl s.accts t2
      by_cases hcp : specCanFinish (needs t) s.work = true
      · have hcb : ¬ (checkNeedAux s.work.length 0
            (s.accts.getD t ⟨[], []⟩).need s.work).1 = true := by
          rw [hc, hcp]; simp
        rw [if_neg hcb, if_pos hcp]
        have hwork : (addAllocAux s.work.length 0 (s.accts.getD t ⟨[], []⟩).alloc s.work).2
            = specAddWork s.work (allocs t) := by
          rw [addAlloc_spec, halloc]
        obtain ⟨k2, hk2⟩ := addAllocAux_pad s.work.length 0
          (s.accts.getD t ⟨[], []⟩).alloc s.work
        obtain ⟨ih1, ih2, ih3, ih4⟩ := ih
          { found := true
            finish := s.finish.set t true
            work := (addAllocAux s.work.length 0 (s.accts.getD t ⟨[], []⟩).alloc s.work).2
            accts := s.accts.set t
              ⟨(checkNeedAux s.work.length 0 (s.accts.getD t ⟨[], []⟩).need s.work).2,
               (addAllocAux s.work.length 0 (s.accts.getD t ⟨[], []⟩).alloc s.work).1⟩
            order := s.order ++ [t] }
          (hVset _ (fun i => by rw [addAllocAux_fst_getD]; exact (hV t i).2))
        refine ⟨?_, ih2, ih3.trans (List.length_set s.accts t _), ?_⟩
        · refine ih1.trans ?_
          show specPass needs allocs rest
            ⟨true, s.finish.set t true,
             (addAllocAux s.work.length 0 (s.accts.getD t ⟨[], []⟩).alloc s.work).2,
             s.order ++ [t]⟩ = _
          rw [hwork]
        · exact PadOf_trans (hPset _ k2 hk2) ih4
      · have hcb : (checkNeedAux s.work.length 0
            (s.accts.getD t ⟨[], []⟩).need s.work).1 = true := by
          rw [hc]
          revert hcp
          cases specCanFinish (needs t) s.work <;> simp
        rw [if_pos hcb, if_neg hcp]
        obtain ⟨ih1, ih2, ih3, ih4⟩ := ih
          { s with
              accts := s.accts.set t
                ⟨(checkNeedAux s.work.length 0 (s.accts.getD t ⟨[], []⟩).need s.work).2,
                 (s.accts.getD t ⟨[], []⟩).alloc⟩ }
          (hVset _ (fun i => (hV t i).2))
        refine ⟨ih1.trans rfl, ih2, ih3.trans (List.length_set s.accts t _), ?_⟩
        exact PadOf_trans (hPset _ 0 (by simp)) ih4

theorem scanLoop_spec (needs allocs : Nat → Nat → Nat) (ids : List Nat) :
    ∀ (fuel : Nat) (fd : Bool) (fin : List Bool) (wk : List Nat) (ac : List Acct)
      (od : List Nat), ViewEq ac needs allocs →
    toSpec (scanLoop fuel ids ⟨fd, fin, wk, ac, od⟩)
        = specLoop needs allocs ids fuel ⟨fd, fin, wk, od⟩ ∧
    ViewEq (scanLoop fuel ids ⟨fd, fin, wk, ac, od⟩).accts needs allocs ∧
    (scanLoop fuel ids ⟨fd, fin, wk, ac, od⟩).accts.length = ac.length ∧
    PadOf ac (scanLoop fuel ids ⟨fd, fin, wk, ac, od⟩).accts := by
  intro fuel
  induction fuel with
  | zero => intro fd fin wk ac od hV; exact ⟨rfl, hV, rfl, PadOf_refl ac⟩
  | succ fuel ih =>
    intro fd fin wk ac od hV
    rw [scanLoop_succ, specLoop_succ]
    obtain ⟨hop1, hop2, hop3, hop4⟩ :=
      onePass_spec needs allocs ids ⟨false, fin, wk, ac, od⟩ hV
    dsimp only at hop1 hop3 hop4
    have hfound : (onePass ids ⟨false, fin, wk, ac, od⟩).found
        = (specPass needs allocs ids ⟨false, fin, wk, od⟩).found :=
      congrArg SpecSt.found hop1
    by_cases hPf : (onePass ids ⟨false, fin, wk, ac, od⟩).found = true
    · rw [if_pos hPf, if_pos (hfound.symm.trans hPf)]
      obtain ⟨ih1, ih2, ih3, ih4⟩ := ih
        (onePass ids ⟨false, fin, wk, ac, od⟩).found
        (onePass ids ⟨false, fin, wk, ac, od⟩).finish
        (onePass ids ⟨false, fin, wk, ac, od⟩).work
        (onePass ids ⟨false, fin, wk, ac, od⟩).accts
        (onePass ids ⟨false, fin, wk, ac, od⟩).order hop2
      exact ⟨ih1.trans (congrArg (specLoop needs allocs ids fuel) hop1),
        ih2, ih3.trans hop3, PadOf_trans hop4 ih4⟩
    · rw [if_neg hPf, if_neg (fun hh => hPf (hfound.trans hh))]
      exact ⟨hop1, hop2, hop3, hop4⟩

/-- The embedded detector and the spec-modelled textbook test agree on
all observable components, the detector leaves every accounting entry
numerically unchanged, and it only pads vectors with zeros. -/
theorem detect_spec (avail : List Nat) (accts : List Acct) :
    toSpec (detect avail accts)
        = specRun (acctNeed accts) (acctAlloc accts) accts.length avail ∧
    ViewEq (detect avail accts).accts (acctNeed accts) (acctAlloc accts) ∧
    (detect avail accts).accts.length = accts.length ∧
    PadOf accts (detect avail accts).accts := by
  have hV : ViewEq accts (acctNeed accts) (acctAlloc accts) := fun t i => ⟨rfl, rfl⟩
  exact scanLoop_spec (acctNeed accts) (acctAlloc accts) (List.range accts.length)
    (accts.length + 1) false (List.replicate accts.length false) avail accts [] hV

/-! ### The loop bound: the final pass makes no progress -/

/-- Number of unfinished entries in a finish vector. -/
def countFalse : List Bool → Nat
  | [] => 0
  | b :: l => (if b then 0 else 1) + countFalse l

theorem countFalse_set_true (l : List Bool) : ∀ (t : Nat), l.getD t true = false →
    countFalse (l.set t true) + 1 = countFalse l := by
  induction l with
  | nil => intro t h; simp at h
  | cons b l ih =>
    intro t h
    cases t with
    | zero =>
      simp only [List.getD_cons_zero] at h
      subst h
      simp only [List.set_cons_zero, countFalse]
      simp only [if_true, Bool.false_eq_true, if_false]
      omega
    | succ t =>
      simp only [List.getD_cons_succ] at h
      simp only [List.set_cons_succ, countFalse]
      have := ih t h
      omega

theorem specPass_cons_var (needs allocs : Nat → Nat → Nat) (t : Nat) (rest : List Nat)
    (s : SpecSt) :
    specPass needs allocs (t :: rest) s =
      if s.finish.getD t true then specPass needs allocs rest s
      else if specCanFinish (needs t) s.work then
        specPass needs allocs rest
          ⟨true, s.finish.set t true, specAddWork s.work (allocs t), s.order ++ [t]⟩
      else specPass needs allocs rest s := rfl

theorem specPass_countFalse_le (needs allocs : Nat → Nat → Nat) :
    ∀ (ids : List Nat) (s : SpecSt),
    countFalse (specPass needs allocs ids s).finish ≤ countFalse s.finish := by
  intro ids
  induction ids with
  | nil => intro s; exact le_refl _
  | cons t rest ih =>
    intro s
    rw [specPass_cons_var]
    by_cases hf : s.finish.getD t true
    · rw [if_pos hf]; exact ih s
    · rw [if_neg hf]
      by_cases hcp : specCanFinish (needs t) s.work = true
      · rw [if_pos hcp]
        refine le_trans (ih _) ?_
        show countFalse (s.finish.set t true) ≤ countFalse s.finish
        have := countFalse_set_true s.finish t (by revert hf; cases s.finish.getD t true <;> simp)
        omega
      · rw [if_neg hcp]; exact ih s

theorem specPass_found_mono (needs allocs : Nat → Nat → Nat) :
    ∀ (ids : List Nat) (s : SpecSt), s.found = true →
    (specPass needs allocs ids s).found = true := by
  intro ids
  induction ids with
  | nil => intro s h; exact h
  | cons t rest ih =>
    intro s h
    rw [specPass_cons_var]
    by_cases hf : s.finish.getD t true
    · rw [if_pos hf]; exact ih s h
    · rw [if_neg hf]
      by_cases hcp : specCanFinish (needs t) s.work = true
      · rw [if_pos hcp]; exact ih _ rfl
      · rw [if_neg hcp]; exact ih s h

theorem specPass_progress (needs allocs : Nat → Nat → Nat) :
    ∀ (ids : List Nat) (s : SpecSt), s.found = false →
    ((specPass needs allocs ids s).found = true →
      countFalse (specPass needs allocs ids s).finish < countFalse s.finish) ∧
    ((specPass needs allocs ids s).found = false → specPass needs allocs ids s = s) := by
  intro ids
  induction ids with
  | nil =>
    intro s h
    exact ⟨fun hh => absurd (h.symm.trans hh) (by simp), fun _ => rfl⟩
  | cons t rest ih =>
    intro s h
    rw [specPass_cons_var]
    by_cases hf : s.finish.getD t true
    · rw [if_pos hf]; exact ih s h
    · rw [if_neg hf]
      by_cases hcp : specCanFinish (needs t) s.work = true
      · rw [if_pos hcp]
        constructor
        · intro _
          have h1 := specPass_countFalse_le needs allocs rest
            ⟨true, s.finish.set t true, specAddWork s.work (allocs t), s.order ++ [t]⟩
          have h2 := countFalse_set_true s.finish t
            (by revert hf; cases s.finish.getD t true <;> simp)
          show countFalse _ < countFalse s.finish
          dsimp only at h1
          omega
        · intro hh
          have := specPass_found_mono needs allocs rest
            ⟨true, s.finish.set t true, specAddWork s.work (allocs t), s.order ++ [t]⟩ rfl
          rw [hh] at this
          exact absurd this (by simp)
      · rw [if_neg hcp]; exact ih s h

theorem specLoop_fixpoint (needs allocs : Nat → Nat → Nat) (ids : List Nat) :
    ∀ (fuel : Nat) (fd : Bool) (fin : List Bool) (wk : List Nat) (od : List Nat),
    countFalse fin < fuel →
    specPass needs allocs ids
        { specLoop needs allocs ids fuel ⟨fd, fin, wk, od⟩ with found := false }
      = { specLoop needs allocs ids fuel ⟨fd, fin, wk, od⟩ with found := false } := by
  intro fuel
  induction fuel with
  | zero => intro fd fin wk od h; omega
  | succ fuel ih =>
    intro fd fin wk od h
    rw [specLoop_succ]
    by_cases h2 : (specPass needs allocs ids ⟨false, fin, wk, od⟩).found = true
    · rw [if_pos h2]
      have hlt := (specPass_progress needs allocs ids ⟨false, fin, wk, od⟩ rfl).1 h2
      dsimp only at hlt
      have := ih (specPass needs allocs ids ⟨false, fin, wk, od⟩).found
        (specPass needs allocs ids ⟨false, fin, wk, od⟩).finish
        (specPass needs allocs ids ⟨false, fin, wk, od⟩).work
        (specPass needs allocs ids ⟨false, fin, wk, od⟩).order (by omega)
      exact this
    · rw [if_neg h2]
      have hff : (specPass needs allocs ids ⟨false, fin, wk, od⟩).found = false := by
        revert h2; cases (specPass needs allocs ids ⟨false, fin, wk, od⟩).found <;> simp
      have hfix := (specPass_progress needs allocs ids ⟨false, fin, wk, od⟩ rfl).2 hff
      rw [hfix]
      exact hfix

/-! ### Views of a process state's per-task accounting -/

/-- Value of task `t`'s mutex-class need entry `i` (0 when absent). -/
def taskM_need (st : ProcState) (t i : Nat) : Nat :=
  (st.tasks.getD t noTask).m_need.getD i 0

/-- Value of task `t`'s mutex-class allocation entry `i`. -/
def taskM_alloc (st : ProcState) (t i : Nat) : Nat :=
  (st.tasks.getD t noTask).m_allocation.getD i 0

/-- Value of task `t`'s semaphore-class need entry `i`. -/
def taskS_need (st : ProcState) (t i : Nat) : Nat :=
  (st.tasks.getD t noTask).s_need.getD i 0

/-- Value of task `t`'s semaphore-class allocation entry `i`. -/
def taskS_alloc (st : ProcState) (t i : Nat) : Nat :=
  (st.tasks.getD t noTask).s_allocation.getD i 0

/-! ### More list lemmas -/

theorem getQ_set_self {α : Type} (l : List α) (i : Nat) (x : α) (h : i < l.length) :
    (l.set i x).get? i = some x := by
  induction l generalizing i with
  | nil => simp at h
  | cons a l ih =>
    cases i with
    | zero => rfl
    | succ i => exact ih i (by simpa using h)

theorem getQ_set_ne {α : Type} (l : List α) (i : Nat) (x : α) (j : Nat) (h : j ≠ i) :
    (l.set i x).get? j = l.get? j := by
  induction l generalizing i j with
  | nil => simp
  | cons a l ih =>
    cases i with
    | zero =>
      cases j with
      | zero => exact absurd rfl h
      | succ j => rfl
    | succ i =>
      cases j with
      | zero => rfl
      | succ j => exact ih i j (fun hh => h (by simpa using hh))

theorem lt_of_getQ_eq_some {α : Type} (l : List α) (i : Nat) (x : α)
    (h : l.get? i = some x) : i < l.length := by
  induction l generalizing i with
  | nil => simp at h
  | cons a l ih =>
    cases i with
    | zero => simp
    | succ i =>
      have := ih i (by simpa using h)
      simpa using this

theorem getD_eq_of_getQ {α : Type} (l : List α) (i : Nat) (x d : α)
    (h : l.get? i = some x) : l.getD i d = x := by
  induction l generalizing i with
  | nil => simp at h
  | cons a l ih =>
    cases i with
    | zero => simp at h; simpa using h
    | succ i =>
      simp only [List.getD_cons_succ]
      exact ih i (by simpa using h)

theorem getQ_eq_some_getD {α : Type} (l : List α) (i : Nat) (d : α)
    (h : i < l.length) : l.get? i = some (l.getD i d) := by
  induction l generalizing i with
  | nil => simp at h
  | cons a l ih =>
    cases i with
    | zero => rfl
    | succ i =>
      simp only [List.getD_cons_succ]
      exact ih i (by simpa using h)

theorem getD_map_mView (tasks : List TaskAcct) : ∀ (t : Nat),
    (tasks.map mView).getD t ⟨[], []⟩ = mView (tasks.getD t noTask) := by
  induction tasks with
  | nil => intro t; rfl
  | cons a l ih =>
    intro t
    cases t with
    | zero => rfl
    | succ t => exact ih t

theorem getD_map_sView (tasks : List TaskAcct) : ∀ (t : Nat),
    (tasks.map sView).getD t ⟨[], []⟩ = sView (tasks.getD t noTask) := by
  induction tasks with
  | nil => intro t; rfl
  | cons a l ih =>
    intro t
    cases t with
    | zero => rfl
    | succ t => exact ih t

theorem getD_zipWith_put (put : TaskAcct → Acct → TaskAcct) :
    ∀ (l : List TaskAcct) (a : List Acct) (t : Nat), a.length = l.length →
    (List.zipWith put l a).getD t noTask =
      if t < l.length then put (l.getD t noTask) (a.getD t ⟨[], []⟩) else noTask := by
  intro l
  induction l with
  | nil =>
    intro a t h
    rw [List.length_eq_zero.mp h]
    simp
  | cons x l ih =>
    intro a t h
    cases a with
    | nil => simp at h
    | cons y a =>
      cases t with
      | zero => simp
      | succ t =>
        have := ih a t (by simpa using h)
        simpa [Nat.succ_lt_succ_iff] using this

/-! ### Effect of the scan wrapper states -/

theorem detect_accts_length (avail : List Nat) (accts : List Acct) :
    (detect avail accts).accts.length = accts.length :=
  (detect_spec avail accts).2.2.1

theorem mScanState_tasks (st : ProcState) :
    (mScanState st).tasks.length = st.tasks.length ∧
    (∀ t i, taskM_need (mScanState st) t i = taskM_need st t i) ∧
    (∀ t i, taskM_alloc (mScanState st) t i = taskM_alloc st t i) ∧
    (∀ t, ((mScanState st).tasks.getD t noTask).s_need
        = (st.tasks.getD t noTask).s_need) ∧
    (∀ t, ((mScanState st).tasks.getD t noTask).s_allocation
        = (st.tasks.getD t noTask).s_allocation) ∧
    (∀ t, ∃ k1 k2,
      ((mScanState st).tasks.getD t noTask).m_need
        = (st.tasks.getD t noTask).m_need ++ List.replicate k1 0 ∧
      ((mScanState st).tasks.getD t noTask).m_allocation
        = (st.tasks.getD t noTask).m_allocation ++ List.replicate k2 0) := by
  obtain ⟨hds, hdv, hdl, hdp⟩ := detect_spec st.m_available (st.tasks.map mView)
  have hlen : (detect st.m_available (st.tasks.map mView)).accts.length
      = st.tasks.length := by rw [hdl, List.length_map]
  have hz : ∀ t, (mScanState st).tasks.getD t noTask =
      if t < st.tasks.length then
        mPut (st.tasks.getD t noTask)
          ((detect st.m_available (st.tasks.map mView)).accts.getD t ⟨[], []⟩)
      else noTask := by
    intro t
    exact getD_zipWith_put mPut st.tasks _ t hlen
  have hlen2 : (mScanState st).tasks.length = st.tasks.length := by
    show (List.zipWith mPut st.tasks _).length = st.tasks.length
    rw [List.length_zipWith, hlen, Nat.min_self]
  refine ⟨hlen2, ?_, ?_, ?_, ?_, ?_⟩
  · intro t i
    rw [taskM_need, hz t]
    by_cases ht : t < st.tasks.length
    · rw [if_pos ht]
      show ((detect st.m_available (st.tasks.map mView)).accts.getD t ⟨[], []⟩).need.getD i 0 = _
      rw [(hdv t i).1]
      show acctNeed (st.tasks.map mView) t i = _
      rw [acctNeed, getD_map_mView]
      rfl
    · rw [if_neg ht, taskM_need,
        getD_eq_default_of_le st.tasks t noTask (by omega)]
  · intro t i
    rw [taskM_alloc, hz t]
    by_cases ht : t < st.tasks.length
    · rw [if_pos ht]
      show ((detect st.m_available (st.tasks.map mView)).accts.getD t ⟨[], []⟩).alloc.getD i 0 = _
      rw [(hdv t i).2]
      show acctAlloc (st.tasks.map mView) t i = _
      rw [acctAlloc, getD_map_mView]
      rfl
    · rw [if_neg ht, taskM_alloc,
        getD_eq_default_of_le st.tasks t noTask (by omega)]
  · intro t
    rw [hz t]
    by_cases ht : t < st.tasks.length
    · rw [if_pos ht]; rfl
    · rw [if_neg ht, getD_eq_default_of_le st.tasks t noTask (by omega)]
  · intro t
    rw [hz t]
    by_cases ht : t < st.tasks.length
    · rw [if_pos ht]; rfl
    · rw [if_neg ht, getD_eq_default_of_le st.tasks t noTask (by omega)]
  · intro t
    rw [hz t]
    by_cases ht : t < st.tasks.length
    · rw [if_pos ht]
      obtain ⟨k1, k2, hk1, hk2⟩ := hdp t
      refine ⟨k1, k2, ?_, ?_⟩
      · show ((detect st.m_available (st.tasks.map mView)).accts.getD t ⟨[], []⟩).need = _
        rw [hk1, getD_map_mView]
        rfl
      · show ((detect st.m_available (st.tasks.map mView)).accts.getD t ⟨[], []⟩).alloc = _
        rw [hk2, getD_map_mView]
        rfl
    · rw [if_neg ht, getD_eq_default_of_le st.tasks t noTask (by omega)]
      exact ⟨0, 0, by simp, by simp⟩

theorem sScanState_tasks (st : ProcState) :
    (sScanState st).tasks.length = st.tasks.length ∧
    (∀ t i, taskS_need (sScanState st) t i = taskS_need st t i) ∧
    (∀ t i, taskS_alloc (sScanState st) t i = taskS_alloc st t i) ∧
    (∀ t, ((sScanState st).tasks.getD t noTask).m_need
        = (st.tasks.getD t noTask).m_need) ∧
    (∀ t, ((sScanState st).tasks.getD t noTask).m_allocation
        = (st.tasks.getD t noTask).m_allocation) ∧
    (∀ t, ∃ k1 k2,
      ((sScanState st).tasks.getD t noTask).s_need
        = (st.tasks.getD t noTask).s_need ++ List.replicate k1 0 ∧
      ((sScanState st).tasks.getD t noTask).s_allocation
        = (st.tasks.getD t noTask).s_allocation ++ List.replicate k2 0) := by
  obtain ⟨hds, hdv, hdl, hdp⟩ := detect_spec st.s_available (st.tasks.map sView)
  have hlen : (detect st.s_available (st.tasks.map sView)).accts.length
      = st.tasks.length := by rw [hdl, List.length_map]
  have hz : ∀ t, (sScanState st).tasks.getD t noTask =
      if t < st.tasks.length then
        sPut (st.tasks.getD t noTask)
          ((detect st.s_available (st.tasks.map sView)).accts.getD t ⟨[], []⟩)
      else noTask := by
    intro t
    exact getD_zipWith_put sPut st.tasks _ t hlen
  have hlen2 : (sScanState st).tasks.length = st.tasks.length := by
    show (List.zipWith sPut st.tasks _).length = st.tasks.length
    rw [List.length_zipWith, hlen, Nat.min_self]
  refine ⟨hlen2, ?_, ?_, ?_, ?_, ?_⟩
  · intro t i
    rw [taskS_need, hz t]
    by_cases ht : t < st.tasks.length
    · rw [if_pos ht]
      show ((detect st.s_available (st.tasks.map sView)).accts.getD t ⟨[], []⟩).need.getD i 0 = _
      rw [(hdv t i).1]
      show acctNeed (st.tasks.map sView) t i = _
      rw [acctNeed, getD_map_sView]
      rfl
    · rw [if_neg ht, taskS_need,
        getD_eq_default_of_le st.tasks t noTask (by omega)]
  · intro t i
    rw [taskS_alloc, hz t]
    by_cases ht : t < st.tasks.length
    · rw [if_pos ht]
      show ((detect st.s_available (st.tasks.map sView)).accts.getD t ⟨[], []⟩).alloc.getD i 0 = _
      rw [(hdv t i).2]
      show acctAlloc (st.tasks.map sView) t i = _
      rw [acctAlloc, getD_map_sView]
      rfl
    · rw [if_neg ht, taskS_alloc,
        getD_eq_default_of_le st.tasks t noTask (by omega)]
  · intro t
    rw [hz t]
    by_cases ht : t < st.tasks.length
    · rw [if_pos ht]; rfl
    · rw [if_neg ht, getD_eq_default_of_le st.tasks t noTask (by omega)]
  · intro t
    rw [hz t]
    by_cases ht : t < st.tasks.length
    · rw [if_pos ht]; rfl
    · rw [if_neg ht, getD_eq_default_of_le st.tasks t noTask (by omega)]
  · intro t
    rw [hz t]
    by_cases ht : t < st.tasks.length
    · rw [if_pos ht]
      obtain ⟨k1, k2, hk1, hk2⟩ := hdp t
      refine ⟨k1, k2, ?_, ?_⟩
      · show ((detect st.s_available (st.tasks.map sView)).accts.getD t ⟨[], []⟩).need = _
        rw [hk1, getD_map_sView]
        rfl
      · show ((detect st.s_available (st.tasks.map sView)).accts.getD t ⟨[], []⟩).alloc = _
        rw [hk2, getD_map_sView]
        rfl
    · rw [if_neg ht, getD_eq_default_of_le st.tasks t noTask (by omega)]
      exact ⟨0, 0, by simp, by simp⟩

theorem mutexAdjState_tasks (st : ProcState) (t0 : TaskAcct) (tid mid : Nat)
    (h : st.tasks.get? tid = some t0) :
    (mutexAdjState st t0 tid mid).tasks.length = st.tasks.length ∧
    (mutexAdjState st t0 tid mid).tasks.get? tid
      = some { t0 with m_need := adjust t0.m_need mid 1 } ∧
    (∀ t, t ≠ tid → (mutexAdjState st t0 tid mid).tasks.getD t noTask
      = st.tasks.getD t noTask) ∧
    (mutexAdjState st t0 tid mid).tasks.getD tid noTask
      = { t0 with m_need := adjust t0.m_need mid 1 } := by
  have hlt : tid < st.tasks.length := lt_of_getQ_eq_some _ _ _ h
  exact ⟨List.length_set _ _ _, getQ_set_self _ _ _ hlt,
    fun t ht => getD_set_ne _ _ _ _ _ ht, getD_set_self _ _ _ _ hlt⟩

theorem semAdjState_tasks (st : ProcState) (t0 : TaskAcct) (tid sid : Nat)
    (h : st.tasks.get? tid = some t0) :
    (semAdjState st t0 tid sid).tasks.length = st.tasks.length ∧
    (semAdjState st t0 tid sid).tasks.get? tid
      = some { t0 with s_need := adjust t0.s_need sid 1 } ∧
    (∀ t, t ≠ tid → (semAdjState st t0 tid sid).tasks.getD t noTask
      = st.tasks.getD t noTask) ∧
    (semAdjState st t0 tid sid).tasks.getD tid noTask
      = { t0 with s_need := adjust t0.s_need sid 1 } := by
  have hlt : tid < st.tasks.length := lt_of_getQ_eq_some _ _ _ h
  exact ⟨List.length_set _ _ _, getQ_set_self _ _ _ hlt,
    fun t ht => getD_set_ne _ _ _ _ _ ht, getD_set_self _ _ _ _ hlt⟩

theorem mutexAdjState_views (st : ProcState) (t0 : TaskAcct) (tid mid : Nat)
    (h : st.tasks.get? tid = some t0) :
    (∀ t i, taskM_alloc (mutexAdjState st t0 tid mid) t i = taskM_alloc st t i) ∧
    (∀ t i, taskS_alloc (mutexAdjState st t0 tid mid) t i = taskS_alloc st t i) ∧
    (∀ t i, taskS_need (mutexAdjState st t0 tid mid) t i = taskS_need st t i) ∧
    (∀ t i, t ≠ tid → taskM_need (mutexAdjState st t0 tid mid) t i = taskM_need st t i) ∧
    taskM_need (mutexAdjState st t0 tid mid) tid mid = taskM_need st tid mid + 1 ∧
    (∀ i, i ≠ mid → taskM_need (mutexAdjState st t0 tid mid) tid i = taskM_need st tid i) := by
  obtain ⟨hl, hq, hne, hd⟩ := mutexAdjState_tasks st t0 tid mid h
  have h0 : st.tasks.getD tid noTask = t0 := getD_eq_of_getQ _ _ _ _ h
  refine ⟨?_, ?_, ?_, ?_, ?_, ?_⟩
  · intro t i
    rcases eq_or_ne t tid with rfl | ht
    · rw [taskM_alloc, taskM_alloc, hd, h0]
    · rw [taskM_alloc, taskM_alloc, hne t ht]
  · intro t i
    rcases eq_or_ne t tid with rfl | ht
    · rw [taskS_alloc, taskS_alloc, hd, h0]
    · rw [taskS_alloc, taskS_alloc, hne t ht]
  · intro t i
    rcases eq_or_ne t tid with rfl | ht
    · rw [taskS_need, taskS_need, hd, h0]
    · rw [taskS_need, taskS_need, hne t ht]
  · intro t i ht
    rw [taskM_need, taskM_need, hne t ht]
  · rw [taskM_need, taskM_need, hd, h0]
    exact getD_adjust_self t0.m_need mid 1
  · intro i hi
    rw [taskM_need, taskM_need, hd, h0]
    exact getD_adjust_ne t0.m_need mid 1 i hi

theorem semAdjState_views (st : ProcState) (t0 : TaskAcct) (tid sid : Nat)
    (h : st.tasks.get? tid = some t0) :
    (∀ t i, taskS_alloc (semAdjState st t0 tid sid) t i = taskS_alloc st t i) ∧
    (∀ t i, taskM_alloc (semAdjState st t0 tid sid) t i = taskM_alloc st t i) ∧
    (∀ t i, taskM_need (semAdjState st t0 tid sid) t i = taskM_need st t i) ∧
    (∀ t i, t ≠ tid → taskS_need (semAdjState st t0 tid sid) t i = taskS_need st t i) ∧
    taskS_need (semAdjState st t0 tid sid) tid sid = taskS_need st tid sid + 1 ∧
    (∀ i, i ≠ sid → taskS_need (semAdjState st t0 tid sid) tid i = taskS_need st tid i) := by
  obtain ⟨hl, hq, hne, hd⟩ := semAdjState_tasks st t0 tid sid h
  have h0 : st.tasks.getD tid noTask = t0 := getD_eq_of_getQ _ _ _ _ h
  refine ⟨?_, ?_, ?_, ?_, ?_, ?_⟩
  · intro t i
    rcases eq_or_ne t tid with rfl | ht
    · rw [taskS_alloc, taskS_alloc, hd, h0]
    · rw [taskS_alloc, taskS_alloc, hne t ht]
  · intro t i
    rcases eq_or_ne t tid with rfl | ht
    · rw [taskM_alloc, taskM_alloc, hd, h0]
    · rw [taskM_alloc, taskM_alloc, hne t ht]
  · intro t i
    rcases eq_or_ne t tid with rfl | ht
    · rw [taskM_need, taskM_need, hd, h0]
    · rw [taskM_need, taskM_need, hne t ht]
  · intro t i ht
    rw [taskS_need, taskS_need, hne t ht]
  · rw [taskS_need, taskS_need, hd, h0]
    exact getD_adjust_self t0.s_need sid 1
  · intro i hi
    rw [taskS_need, taskS_need, hd, h0]
    exact getD_adjust_ne t0.s_need sid 1 i hi

/-! ### Characterizations of the commit and rollback blocks -/

theorem mutexRollback_eq (st : ProcState) (tid mid : Nat) (t : TaskAcct) (n : Nat)
    (h1 : st.tasks.get? tid = some t) (h2 : t.m_need.get? mid = some (n + 1)) :
    mutexRollback st tid mid = some ⟨-0xDEAD, false,
      { st with tasks := st.tasks.set tid { t with m_need := t.m_need.set mid n } }⟩ := by
  unfold mutexRollback
  rw [h1]
  dsimp only
  rw [h2]

theorem semRollback_eq (st : ProcState) (tid sid : Nat) (t : TaskAcct) (n : Nat)
    (h1 : st.tasks.get? tid = some t) (h2 : t.s_need.get? sid = some (n + 1)) :
    semRollback st tid sid = some ⟨-0xDEAD, false,
      { st with tasks := st.tasks.set tid { t with s_need := t.s_need.set sid n } }⟩ := by
  unfold semRollback
  rw [h1]
  dsimp only
  rw [h2]

theorem mutexRollback_inv (st : ProcState) (tid mid : Nat) (r : SysResult)
    (h : mutexRollback st tid mid = some r) :
    ∃ t n, st.tasks.get? tid = some t ∧ t.m_need.get? mid = some (n + 1) ∧
      r = ⟨-0xDEAD, false,
        { st with tasks := st.tasks.set tid { t with m_need := t.m_need.set mid n } }⟩ := by
  unfold mutexRollback at h
  cases hg1 : st.tasks.get? tid with
  | none => rw [hg1] at h; exact Option.noConfusion h
  | some t =>
    rw [hg1] at h
    try dsimp only at h
    cases hg2 : t.m_need.get? mid with
    | none => rw [hg2] at h; exact Option.noConfusion h
    | some k =>
      rw [hg2] at h
      try dsimp only at h
      cases k with
      | zero => exact Option.noConfusion h
      | succ n =>
        exact ⟨t, n, rfl, hg2, (Option.some.inj h).symm⟩

theorem semRollback_inv (st : ProcState) (tid sid : Nat) (r : SysResult)
    (h : semRollback st tid sid = some r) :
    ∃ t n, st.tasks.get? tid = some t ∧ t.s_need.get? sid = some (n + 1) ∧
      r = ⟨-0xDEAD, false,
        { st with tasks := st.tasks.set tid { t with s_need := t.s_need.set sid n } }⟩ := by
  unfold semRollback at h
  cases hg1 : st.tasks.get? tid with
  | none => rw [hg1] at h; exact Option.noConfusion h
  | some t =>
    rw [hg1] at h
    try dsimp only at h
    cases hg2 : t.s_need.get? sid with
    | none => rw [hg2] at h; exact Option.noConfusion h
    | some k =>
      rw [hg2] at h
      try dsimp only at h
      cases k with
      | zero => exact Option.noConfusion h
      | succ n =>
        exact ⟨t, n, rfl, hg2, (Option.some.inj h).symm⟩

theorem mutexCommit_inv (st : ProcState) (tid mid : Nat) (r : SysResult)
    (h : mutexCommit st tid mid = some r) :
    ∃ t n a v b, st.tasks.get? tid = some t ∧ t.m_need.get? mid = some (n + 1) ∧
      t.m_allocation.get? mid = some a ∧ st.m_available.get? mid = some (v + 1) ∧
      st.mutex_list.getD mid none = some b ∧
      r = ⟨0, true,
        { st with
            tasks := st.tasks.set tid
              { t with m_need := t.m_need.set mid n,
                       m_allocation := t.m_allocation.set mid (a + 1) }
            m_available := st.m_available.set mid v }⟩ := by
  unfold mutexCommit at h
  cases hg1 : st.tasks.get? tid with
  | none => rw [hg1] at h; exact Option.noConfusion h
  | some t =>
    rw [hg1] at h
    try dsimp only at h
    cases hg2 : t.m_need.get? mid with
    | none => rw [hg2] at h; exact Option.noConfusion h
    | some k =>
      rw [hg2] at h
      try dsimp only at h
      cases k with
      | zero => exact Option.noConfusion h
      | succ n =>
        cases hg3 : t.m_allocation.get? mid with
        | none => rw [hg3] at h; exact Option.noConfusion h
        | some a =>
          rw [hg3] at h
          try dsimp only at h
          cases hg4 : st.m_available.get? mid with
          | none => rw [hg4] at h; exact Option.noConfusion h
          | some w =>
            rw [hg4] at h
            try dsimp only at h
            cases w with
            | zero => exact Option.noConfusion h
            | succ v =>
              cases hg5 : st.mutex_list.getD mid none with
              | none => rw [hg5] at h; exact Option.noConfusion h
              | some b =>
                rw [hg5] at h
                try dsimp only at h
                exact ⟨t, n, a, v, b, rfl, hg2, hg3, rfl, rfl, (Option.some.inj h).symm⟩

theorem semCommit_inv (st : ProcState) (tid sid : Nat) (r : SysResult)
    (h : semCommit st tid sid = some r) :
    ∃ t, st.tasks.get? tid = some t ∧
      ((st.s_available.get? sid = some 0 ∧
        (∃ b, st.semaphore_list.getD sid none = some b) ∧ r = ⟨0, true, st⟩) ∨
       (∃ n v b, st.s_available.get? sid = some (v + 1) ∧
        t.s_need.get? sid = some (n + 1) ∧ st.semaphore_list.getD sid none = some b ∧
        r = ⟨0, true,
          { st with
              tasks := st.tasks.set tid
                { t with s_need := t.s_need.set sid n,
                         s_allocation := adjust t.s_allocation sid 1 }
              s_available := st.s_available.set sid v }⟩)) := by
  unfold semCommit at h
  cases hg1 : st.tasks.get? tid with
  | none => rw [hg1] at h; exact Option.noConfusion h
  | some t =>
    rw [hg1] at h
    try dsimp only at h
    cases hg2 : st.s_available.get? sid with
    | none => rw [hg2] at h; exact Option.noConfusion h
    | some w =>
      rw [hg2] at h
      try dsimp only at h
      cases w with
      | zero =>
        cases hg3 : st.semaphore_list.getD sid none with
        | none => rw [hg3] at h; exact Option.noConfusion h
        | some b =>
          rw [hg3] at h
          try dsimp only at h
          exact ⟨t, rfl, Or.inl ⟨rfl, ⟨b, rfl⟩, (Option.some.inj h).symm⟩⟩
      | succ v =>
        cases hg4 : t.s_need.get? sid with
        | none => rw [hg4] at h; exact Option.noConfusion h
        | some k =>
          rw [hg4] at h
          try dsimp only at h
          cases k with
          | zero => exact Option.noConfusion h
          | succ n =>
            cases hg5 : st.semaphore_list.getD sid none with
            | none => rw [hg5] at h; exact Option.noConfusion h
            | some b =>
              rw [hg5] at h
              try dsimp only at h
              exact ⟨t, rfl, Or.inr ⟨n, v, b, rfl, hg4, rfl, (Option.some.inj h).symm⟩⟩

theorem sys_mutex_unlock_inv (st : ProcState) (tid mid : Nat) (r : SysResult)
    (h : sys_mutex_unlock st tid mid = some r) :
    ∃ t v a b, st.tasks.get? tid = some t ∧ st.m_available.get? mid = some v ∧
      t.m_allocation.get? mid = some (a + 1) ∧ st.mutex_list.getD mid none = some b ∧
      r = ⟨0, true,
        { st with
            m_available := st.m_available.set mid (v + 1)
            tasks := st.tasks.set tid
              { t with m_allocation := t.m_allocation.set mid a } }⟩ := by
  unfold sys_mutex_unlock at h
  cases hg1 : st.tasks.get? tid with
  | none => rw [hg1] at h; exact Option.noConfusion h
  | some t =>
    rw [hg1] at h
    try dsimp only at h
    cases hg2 : st.m_available.get? mid with
    | none => rw [hg2] at h; exact Option.noConfusion h
    | some v =>
      rw [hg2] at h
      try dsimp only at h
      cases hg3 : t.m_allocation.get? mid with
      | none => rw [hg3] at h; exact Option.noConfusion h
      | some k =>
        rw [hg3] at h
        try dsimp only at h
        cases k with
        | zero => exact Option.noConfusion h
        | succ a =>
          cases hg4 : st.mutex_list.getD mid none with
          | none => rw [hg4] at h; exact Option.noConfusion h
          | some b =>
            rw [hg4] at h
            try dsimp only at h
            exact ⟨t, v, a, b, rfl, rfl, hg3, rfl, (Option.some.inj h).symm⟩

theorem sys_semaphore_up_inv (st : ProcState) (tid sid : Nat) (r : SysResult)
    (h : sys_semaphore_up st tid sid = some r) :
    ∃ b v t a, st.semaphore_list.getD sid none = some b ∧
      st.s_available.get? sid = some v ∧ st.tasks.get? tid = some t ∧
      t.s_allocation.get? sid = some (a + 1) ∧
      r = ⟨0, true,
        { st with
            s_available := st.s_available.set sid (v + 1)
            tasks := st.tasks.set tid
              { t with s_allocation := t.s_allocation.set sid a } }⟩ := by
  unfold sys_semaphore_up at h
  cases hg1 : st.semaphore_list.getD sid none with
  | none => rw [hg1] at h; exact Option.noConfusion h
  | some b =>
    rw [hg1] at h
    try dsimp only at h
    cases hg2 : st.s_available.get? sid with
    | none => rw [hg2] at h; exact Option.noConfusion h
    | some v =>
      rw [hg2] at h
      try dsimp only at h
      cases hg3 : st.tasks.get? tid with
      | none => rw [hg3] at h; exact Option.noConfusion h
      | some t =>
        rw [hg3] at h
        try dsimp only at h
        cases hg4 : t.s_allocation.get? sid with
        | none => rw [hg4] at h; exact Option.noConfusion h
        | some k =>
          rw [hg4] at h
          try dsimp only at h
          cases k with
          | zero => exact Option.noConfusion h
          | succ a =>
            exact ⟨b, v, t, a, rfl, rfl, rfl, hg4, (Option.some.inj h).symm⟩

theorem mutexCommit_ret (st : ProcState) (tid mid : Nat) (r : SysResult)
    (h : mutexCommit st tid mid = some r) : r.ret = 0 ∧ r.invoked = true := by
  obtain ⟨t, n, a, v, b, _, _, _, _, _, hr⟩ := mutexCommit_inv st tid mid r h
  rw [hr]
  exact ⟨rfl, rfl⟩

theorem semCommit_ret (st : ProcState) (tid sid : Nat) (r : SysResult)
    (h : semCommit st tid sid = some r) : r.ret = 0 ∧ r.invoked = true := by
  obtain ⟨t, _, hc⟩ := semCommit_inv st tid sid r h
  rcases hc with ⟨_, _, hr⟩ | ⟨n, v, b, _, _, _, hr⟩ <;> rw [hr] <;> exact ⟨rfl, rfl⟩

/-! ### Unfolding the acquisition syscalls -/

theorem sys_mutex_lock_eq (st : ProcState) (tid mid : Nat) (t0 : TaskAcct)
    (h : st.tasks.get? tid = some t0) :
    sys_mutex_lock st tid mid =
      if (mutexAdjState st t0 tid mid).use_dead_lock then
        if (detect (mutexAdjState st t0 tid mid).m_available
              ((mutexAdjState st t0 tid mid).tasks.map mView)).finish.any
            (fun x => x == false) then
          mutexRollback (mScanState (mutexAdjState st t0 tid mid)) tid mid
        else mutexCommit (mScanState (mutexAdjState st t0 tid mid)) tid mid
      else mutexCommit (mutexAdjState st t0 tid mid) tid mid := by
  unfold sys_mutex_lock
  rw [h]

theorem sys_semaphore_down_eq (st : ProcState) (tid sid : Nat) (t0 : TaskAcct)
    (h : st.tasks.get? tid = some t0) :
    sys_semaphore_down st tid sid =
      if (semAdjState st t0 tid sid).use_dead_lock then
        if (detect (semAdjState st t0 tid sid).s_available
              ((semAdjState st t0 tid sid).tasks.map sView)).finish.any
            (fun x => x == false) then
          semRollback (sScanState (semAdjState st t0 tid sid)) tid sid
        else semCommit (sScanState (semAdjState st t0 tid sid)) tid sid
      else semCommit (semAdjState st t0 tid sid) tid sid := by
  unfold sys_semaphore_down
  rw [h]

/-! ### The slot allocator -/

theorem findNone_some {α : Type} :
    ∀ (l : List (Option α)) (i : Nat), findNone l = some i →
    l.get? i = some none ∧ ∀ j, j < i → l.getD j none ≠ none := by
  intro l
  induction l with
  | nil => intro i h; exact Option.noConfusion h
  | cons a l ih =>
    intro i h
    cases a with
    | none =>
      have hi : 0 = i := Option.some.inj h
      subst hi
      exact ⟨rfl, fun j hj => absurd hj (by omega)⟩
    | some x =>
      cases hf : findNone l with
      | none =>
        rw [findNone, hf] at h
        exact Option.noConfusion h
      | some k =>
        rw [findNone, hf] at h
        have hi : k + 1 = i := Option.some.inj h
        subst hi
        obtain ⟨h1, h2⟩ := ih k hf
        refine ⟨h1, ?_⟩
        intro j hj
        cases j with
        | zero => simp
        | succ j =>
          simp only [List.getD_cons_succ]
          exact h2 j (by omega)

theorem findNone_none {α : Type} :
    ∀ (l : List (Option α)), findNone l = none →
    ∀ j, j < l.length → l.getD j none ≠ none := by
  intro l
  induction l with
  | nil => intro h j hj; simp at hj
  | cons a l ih =>
    intro h j hj
    cases a with
    | none => exact Option.noConfusion h
    | some x =>
      cases hf : findNone l with
      | some k =>
        rw [findNone, hf] at h
        exact Option.noConfusion h
      | none =>
        cases j with
        | zero => simp
        | succ j =>
          simp only [List.getD_cons_succ]
          exact ih hf j (by simpa using hj)

/-! ### Claim C8 -/

/-- C8: `sys_enable_deadlock_detect` returns 0 and sets the process-wide
`use_dead_lock` flag to true on input 1 and to false on input 0; for every
other input it returns -1 and leaves the whole process state unchanged. -/
theorem c8_enable_toggle (st : ProcState) (n : Nat) :
    (n = 1 → sys_enable_deadlock_detect st n = (0, { st with use_dead_lock := true })) ∧
    (n = 0 → sys_enable_deadlock_detect st n = (0, { st with use_dead_lock := false })) ∧
    (n ≠ 1 → n ≠ 0 → sys_enable_deadlock_detect st n = (-1, st)) := by
  refine ⟨?_, ?_, ?_⟩
  · intro h; subst h; rfl
  · intro h; subst h; rfl
  · intro h1 h0
    unfold sys_enable_deadlock_detect
    rw [if_neg h1, if_neg h0]

/-- Witness for C8 at concrete inputs 1, 0 and 7. -/
theorem c8_enable_toggle_witness :
    sys_enable_deadlock_detect ⟨[], [], false, [], [], [], []⟩ 1
      = (0, ⟨[], [], true, [], [], [], []⟩) ∧
    sys_enable_deadlock_detect ⟨[], [], true, [], [], [], []⟩ 0
      = (0, ⟨[], [], false, [], [], [], []⟩) ∧
    sys_enable_deadlock_detect ⟨[], [], false, [], [], [], []⟩ 7
      = (-1, ⟨[], [], false, [], [], [], []⟩) :=
  ⟨(c8_enable_toggle ⟨[], [], false, [], [], [], []⟩ 1).1 rfl,
   (c8_enable_toggle ⟨[], [], true, [], [], [], []⟩ 0).2.1 rfl,
   (c8_enable_toggle ⟨[], [], false, [], [], [], []⟩ 7).2.2 (by decide) (by decide)⟩

/-! ### Claim C6 -/

/-- C6: each of the three creation syscalls returns the lowest empty slot
of its per-process table when one exists (installing the instance there),
and otherwise appends and returns the new last index; the returned id is
always nonnegative. -/
theorem c6_create_lowest_slot (st : ProcState) (blocking : Bool) (cnt : Nat) :
    (0 ≤ (sys_mutex_create st blocking).1 ∧
      (sys_mutex_create st blocking).1 = (mutexSlot st : Int) ∧
      ((mutexSlot st < st.mutex_list.length ∧
        st.mutex_list.get? (mutexSlot st) = some none ∧
        (∀ j, j < mutexSlot st → st.mutex_list.getD j none ≠ none) ∧
        (sys_mutex_create st blocking).2.mutex_list
          = st.mutex_list.set (mutexSlot st) (some blocking)) ∨
       ((∀ j, j < st.mutex_list.length → st.mutex_list.getD j none ≠ none) ∧
        mutexSlot st = st.mutex_list.length ∧
        (sys_mutex_create st blocking).2.mutex_list
          = st.mutex_list ++ [some blocking]))) ∧
    (0 ≤ (sys_semaphore_create st cnt).1 ∧
      (sys_semaphore_create st cnt).1 = (semSlot st : Int) ∧
      ((semSlot st < st.semaphore_list.length ∧
        st.semaphore_list.get? (semSlot st) = some none ∧
        (∀ j, j < semSlot st → st.semaphore_list.getD j none ≠ none) ∧
        (sys_semaphore_create st cnt).2.semaphore_list
          = st.semaphore_list.set (semSlot st) (some cnt)) ∨
       ((∀ j, j < st.semaphore_list.length → st.semaphore_list.getD j none ≠ none) ∧
        semSlot st = st.semaphore_list.length ∧
        (sys_semaphore_create st cnt).2.semaphore_list
          = st.semaphore_list ++ [some cnt]))) ∧
    (0 ≤ (sys_condvar_create st).1 ∧
      (sys_condvar_create st).1 = (condvarSlot st : Int) ∧
      ((condvarSlot st < st.condvar_list.length ∧
        st.condvar_list.get? (condvarSlot st) = some none ∧
        (∀ j, j < condvarSlot st → st.condvar_list.getD j none ≠ none) ∧
        (sys_condvar_create st).2.condvar_list
          = st.condvar_list.set (condvarSlot st) (some ())) ∨
       ((∀ j, j < st.condvar_list.length → st.condvar_list.getD j none ≠ none) ∧
        condvarSlot st = st.condvar_list.length ∧
        (sys_condvar_create st).2.condvar_list
          = st.condvar_list ++ [some ()]))) := by
  refine ⟨⟨show (0 : Int) ≤ (mutexSlot st : Int) from Int.natCast_nonneg _, rfl, ?_⟩,
    ⟨show (0 : Int) ≤ (semSlot st : Int) from Int.natCast_nonneg _, rfl, ?_⟩,
    ⟨show (0 : Int) ≤ (condvarSlot st : Int) from Int.natCast_nonneg _, rfl, ?_⟩⟩
  · cases hf : findNone st.mutex_list with
    | some i =>
      have hs : mutexSlot st = i := by unfold mutexSlot; rw [hf]
      obtain ⟨h1, h2⟩ := findNone_some st.mutex_list i hf
      left
      refine ⟨by rw [hs]; exact lt_of_getQ_eq_some _ _ _ h1, by rw [hs]; exact h1,
        fun j hj => h2 j (by rw [hs] at hj; exact hj), ?_⟩
      show (match findNone st.mutex_list with
        | some i => st.mutex_list.set i (some blocking)
        | none => st.mutex_list ++ [some blocking]) = _
      rw [hf, hs]
    | none =>
      have hs : mutexSlot st = st.mutex_list.length := by unfold mutexSlot; rw [hf]
      right
      refine ⟨findNone_none st.mutex_list hf, hs, ?_⟩
      show (match findNone st.mutex_list with
        | some i => st.mutex_list.set i (some blocking)
        | none => st.mutex_list ++ [some blocking]) = _
      rw [hf]
  · cases hf : findNone st.semaphore_list with
    | some i =>
      have hs : semSlot st = i := by unfold semSlot; rw [hf]
      obtain ⟨h1, h2⟩ := findNone_some st.semaphore_list i hf
      left
      refine ⟨by rw [hs]; exact lt_of_getQ_eq_some _ _ _ h1, by rw [hs]; exact h1,
        fun j hj => h2 j (by rw [hs] at hj; exact hj), ?_⟩
      show (match findNone st.semaphore_list with
        | some i => st.semaphore_list.set i (some cnt)
        | none => st.semaphore_list ++ [some cnt]) = _
      rw [hf, hs]
    | none =>
      have hs : semSlot st = st.semaphore_list.length := by unfold semSlot; rw [hf]
      right
      refine ⟨findNone_none st.semaphore_list hf, hs, ?_⟩
      show (match findNone st.semaphore_list with
        | some i => st.semaphore_list.set i (some cnt)
        | none => st.semaphore_list ++ [some cnt]) = _
      rw [hf]
  · cases hf : findNone st.condvar_list with
    | some i =>
      have hs : condvarSlot st = i := by unfold condvarSlot; rw [hf]
      obtain ⟨h1, h2⟩ := findNone_some st.condvar_list i hf
      left
      refine ⟨by rw [hs]; exact lt_of_getQ_eq_some _ _ _ h1, by rw [hs]; exact h1,
        fun j hj => h2 j (by rw [hs] at hj; exact hj), ?_⟩
      show (match findNone st.condvar_list with
        | some i => st.condvar_list.set i (some ())
        | none => st.condvar_list ++ [some ()]) = _
      rw [hf, hs]
    | none =>
      have hs : condvarSlot st = st.condvar_list.length := by unfold condvarSlot; rw [hf]
      right
      refine ⟨findNone_none st.condvar_list hf, hs, ?_⟩
      show (match findNone st.condvar_list with
        | some i => st.condvar_list.set i (some ())
        | none => st.condvar_list ++ [some ()]) = _
      rw [hf]

/-! ### Claim C7 -/

/-- C7: in a state whose table has no empty slot and whose accounting
vectors are index-aligned with the table (the only shape reachable in
this core, which never vacates a slot), every successful
`sys_mutex_create` / `sys_semaphore_create` appends at the new id, zeroes
the need/allocation entry for the new id in every currently-live task,
sets the process's available entry for that id to the starting capacity
(1 for a mutex, the supplied count for a semaphore), and leaves all
accounting vectors index-aligned with the grown table. -/
theorem c7_create_initializes_accounting (st : ProcState) (blocking : Bool) (cnt : Nat) :
    ((∀ j, j < st.mutex_list.length → st.mutex_list.getD j none ≠ none) →
     st.m_available.length ≤ st.mutex_list.length →
     (∀ t, t ∈ st.tasks → t.m_need.length ≤ st.mutex_list.length ∧
        t.m_allocation.length ≤ st.mutex_list.length) →
     (sys_mutex_create st blocking).1 = (st.mutex_list.length : Int) ∧
     (sys_mutex_create st blocking).2.m_available.getD st.mutex_list.length 0 = 1 ∧
     (sys_mutex_create st blocking).2.m_available.length
       = (sys_mutex_create st blocking).2.mutex_list.length ∧
     (∀ t2, t2 ∈ (sys_mutex_create st blocking).2.tasks →
        t2.m_need.getD st.mutex_list.length 0 = 0 ∧
        t2.m_allocation.getD st.mutex_list.length 0 = 0 ∧
        t2.m_need.length = (sys_mutex_create st blocking).2.mutex_list.length ∧
        t2.m_allocation.length = (sys_mutex_create st blocking).2.mutex_list.length)) ∧
    ((∀ j, j < st.semaphore_list.length → st.semaphore_list.getD j none ≠ none) →
     st.s_available.length ≤ st.semaphore_list.length →
     (∀ t, t ∈ st.tasks → t.s_need.length ≤ st.semaphore_list.length ∧
        t.s_allocation.length ≤ st.semaphore_list.length) →
     (sys_semaphore_create st cnt).1 = (st.semaphore_list.length : Int) ∧
     (sys_semaphore_create st cnt).2.s_available.getD st.semaphore_list.length 0 = cnt ∧
     (sys_semaphore_create st cnt).2.s_available.length
       = (sys_semaphore_create st cnt).2.semaphore_list.length ∧
     (∀ t2, t2 ∈ (sys_semaphore_create st cnt).2.tasks →
        t2.s_need.getD st.semaphore_list.length 0 = 0 ∧
        t2.s_allocation.getD st.semaphore_list.length 0 = 0 ∧
        t2.s_need.length = (sys_semaphore_create st cnt).2.semaphore_list.length ∧
        t2.s_allocation.length = (sys_semaphore_create st cnt).2.semaphore_list.length)) := by
  constructor
  · intro hFull hA hT
    have hf : findNone st.mutex_list = none := by
      cases hf : findNone st.mutex_list with
      | none => rfl
      | some i =>
        obtain ⟨h1, _⟩ := findNone_some st.mutex_list i hf
        have hlt := lt_of_getQ_eq_some _ _ _ h1
        exact absurd (getD_eq_of_getQ _ _ _ none h1) (hFull i hlt)
    have hs : mutexSlot st = st.mutex_list.length := by unfold mutexSlot; rw [hf]
    have hlist : (sys_mutex_create st blocking).2.mutex_list
        = st.mutex_list ++ [some blocking] := by
      show (match findNone st.mutex_list with
        | some i => st.mutex_list.set i (some blocking)
        | none => st.mutex_list ++ [some blocking]) = _
      rw [hf]
    have hlistlen : (sys_mutex_create st blocking).2.mutex_list.length
        = st.mutex_list.length + 1 := by
      rw [hlist, List.length_append, List.length_cons, List.length_nil]
    refine ⟨by rw [show (sys_mutex_create st blocking).1 = (mutexSlot st : Int) from rfl, hs],
      ?_, ?_, ?_⟩
    · show (adjust st.m_available (mutexSlot st) 1).getD st.mutex_list.length 0 = 1
      rw [hs, getD_adjust_self, getD_eq_default_of_le _ _ _ hA]
    · show (adjust st.m_available (mutexSlot st) 1).length = _
      rw [hlistlen, adjust_length, hs]
      omega
    · intro t2 ht2
      have ht2m : t2 ∈ initTasksM st.tasks (mutexSlot st) := ht2
      obtain ⟨t, htmem, hteq⟩ := List.mem_map.mp ht2m
      obtain ⟨htn, hta⟩ := hT t htmem
      subst hteq
      rw [hs]
      refine ⟨?_, ?_, ?_, ?_⟩
      · show (adjust t.m_need st.mutex_list.length 0).getD st.mutex_list.length 0 = 0
        rw [getD_adjust_self, getD_eq_default_of_le _ _ _ htn]
      · show (adjust t.m_allocation st.mutex_list.length 0).getD st.mutex_list.length 0 = 0
        rw [getD_adjust_self, getD_eq_default_of_le _ _ _ hta]
      · show (adjust t.m_need st.mutex_list.length 0).length = _
        rw [hlistlen, adjust_length]
        omega
      · show (adjust t.m_allocation st.mutex_list.length 0).length = _
        rw [hlistlen, adjust_length]
        omega
  · intro hFull hA hT
    have hf : findNone st.semaphore_list = none := by
      cases hf : findNone st.semaphore_list with
      | none => rfl
      | some i =>
        obtain ⟨h1, _⟩ := findNone_some st.semaphore_list i hf
        have hlt := lt_of_getQ_eq_some _ _ _ h1
        exact absurd (getD_eq_of_getQ _ _ _ none h1) (hFull i hlt)
    have hs : semSlot st = st.semaphore_list.length := by unfold semSlot; rw [hf]
    have hlist : (sys_semaphore_create st cnt).2.semaphore_list
        = st.semaphore_list ++ [some cnt] := by
      show (match findNone st.semaphore_list with
        | some i => st.semaphore_list.set i (some cnt)
        | none => st.semaphore_list ++ [some cnt]) = _
      rw [hf]
    have hlistlen : (sys_semaphore_create st cnt).2.semaphore_list.length
        = st.semaphore_list.length + 1 := by
      rw [hlist, List.length_append, List.length_cons, List.length_nil]
    refine ⟨by rw [show (sys_semaphore_create st cnt).1 = (semSlot st : Int) from rfl, hs],
      ?_, ?_, ?_⟩
    · show (adjust st.s_available (semSlot st) cnt).getD st.semaphore_list.length 0 = cnt
      rw [hs, getD_adjust_self, getD_eq_default_of_le _ _ _ hA]
      omega
    · show (adjust st.s_available (semSlot st) cnt).length = _
      rw [hlistlen, adjust_length, hs]
      omega
    · intro t2 ht2
      have ht2m : t2 ∈ initTasksS st.tasks (semSlot st) := ht2
      obtain ⟨t, htmem, hteq⟩ := List.mem_map.mp ht2m
      obtain ⟨htn, hta⟩ := hT t htmem
      subst hteq
      rw [hs]
      refine ⟨?_, ?_, ?_, ?_⟩
      · show (adjust t.s_need st.semaphore_list.length 0).getD st.semaphore_list.length 0 = 0
        rw [getD_adjust_self, getD_eq_default_of_le _ _ _ htn]
      · show (adjust t.s_allocation st.semaphore_list.length 0).getD
          st.semaphore_list.length 0 = 0
        rw [getD_adjust_self, getD_eq_default_of_le _ _ _ hta]
      · show (adjust t.s_need st.semaphore_list.length 0).length = _
        rw [hlistlen, adjust_length]
        omega
      · show (adjust t.s_allocation st.semaphore_list.length 0).length = _
        rw [hlistlen, adjust_length]
        omega

/-- A small aligned process state used to witness C7: one task, one mutex,
one semaphore of capacity 2, all vectors of length 1. -/
def c7state : ProcState :=
  ⟨[1], [2], false, [⟨[0], [0], [0], [0]⟩], [some true], [some 2], []⟩

/-- Witness for C7: on `c7state` the new mutex id is 1 with available
entry 1, and a semaphore created with count 5 gets available entry 5. -/
theorem c7_create_initializes_accounting_witness :
    (sys_mutex_create c7state true).2.m_available.getD 1 0 = 1 ∧
    (sys_semaphore_create c7state 5).2.s_available.getD 1 0 = 5 :=
  ⟨((c7_create_initializes_accounting c7state true 5).1
      (by decide) (by decide) (by decide)).2.1,
   ((c7_create_initializes_accounting c7state true 5).2
      (by decide) (by decide) (by decide)).2.1⟩

/-! ### Claim C9 -/

/-- C9: the detector is a deterministic function of the accounting state:
two runs from the same available vector over per-task need/allocation
values that agree entry-wise produce the same finish vector, the same
finishing order, and the same accept/reject outcome. -/
theorem c9_detector_deterministic (avail : List Nat) (accts1 accts2 : List Acct)
    (hlen : accts1.length = accts2.length)
    (hneed : ∀ t i, acctNeed accts1 t i = acctNeed accts2 t i)
    (halloc : ∀ t i, acctAlloc accts1 t i = acctAlloc accts2 t i) :
    (detect avail accts1).finish = (detect avail accts2).finish ∧
    (detect avail accts1).order = (detect avail accts2).order ∧
    (detect avail accts1).finish.any (fun x => x == false)
      = (detect avail accts2).finish.any (fun x => x == false) := by
  obtain ⟨h1, -, -, -⟩ := detect_spec avail accts1
  obtain ⟨h2, -, -, -⟩ := detect_spec avail accts2
  have hn : acctNeed accts1 = acctNeed accts2 :=
    funext fun t => funext fun i => hneed t i
  have ha : acctAlloc accts1 = acctAlloc accts2 :=
    funext fun t => funext fun i => halloc t i
  have hrun : specRun (acctNeed accts1) (acctAlloc accts1) accts1.length avail
      = specRun (acctNeed accts2) (acctAlloc accts2) accts2.length avail := by
    rw [hn, ha, hlen]
  have hts : toSpec (detect avail accts1) = toSpec (detect avail accts2) := by
    rw [h1, h2, hrun]
  have hfin : (detect avail accts1).finish = (detect avail accts2).finish :=
    congrArg SpecSt.finish hts
  exact ⟨hfin, congrArg SpecSt.order hts, by rw [hfin]⟩

/-- Witness for C9: two one-task states whose vectors differ only by
zero padding give the same detector outcome. -/
theorem c9_detector_deterministic_witness :
    (detect [1] [⟨[1], [0]⟩]).finish = (detect [1] [⟨[1, 0], [0, 0]⟩]).finish ∧
    (detect [1] [⟨[1], [0]⟩]).order = (detect [1] [⟨[1, 0], [0, 0]⟩]).order ∧
    (detect [1] [⟨[1], [0]⟩]).finish.any (fun x => x == false)
      = (detect [1] [⟨[1, 0], [0, 0]⟩]).finish.any (fun x => x == false) := by
  refine c9_detector_deterministic [1] [⟨[1], [0]⟩] [⟨[1, 0], [0, 0]⟩] (by decide) ?_ ?_
  · intro t i
    unfold acctNeed
    cases t with
    | zero =>
      show ([1] : List Nat).getD i 0 = ([1, 0] : List Nat).getD i 0
      cases i with
      | zero => rfl
      | succ i =>
        show ([] : List Nat).getD i 0 = ([0] : List Nat).getD i 0
        cases i with
        | zero => rfl
        | succ i => rfl
    | succ t => rfl
  · intro t i
    unfold acctAlloc
    cases t with
    | zero =>
      show ([0] : List Nat).getD i 0 = ([0, 0] : List Nat).getD i 0
      cases i with
      | zero => rfl
      | succ i =>
        show ([] : List Nat).getD i 0 = ([0] : List Nat).getD i 0
        cases i with
        | zero => rfl
        | succ i => rfl
    | succ t => rfl

/-! ### Claim C10 -/

/-- C10: the detector scan is read-only on accounting values: every need
and allocation entry keeps its numeric value (vectors are at most
extended with zeros), and the process's available vectors are untouched
by the scan wrapper states of `sys_mutex_lock` / `sys_semaphore_down`;
only the final commit or rollback mutates values. -/
theorem c10_scan_read_only (avail : List Nat) (accts : List Acct) (st : ProcState) :
    (∀ t i, acctNeed (detect avail accts).accts t i = acctNeed accts t i) ∧
    (∀ t i, acctAlloc (detect avail accts).accts t i = acctAlloc accts t i) ∧
    (∀ t, ∃ k1 k2,
      ((detect avail accts).accts.getD t ⟨[], []⟩).need
        = (accts.getD t ⟨[], []⟩).need ++ List.replicate k1 0 ∧
      ((detect avail accts).accts.getD t ⟨[], []⟩).alloc
        = (accts.getD t ⟨[], []⟩).alloc ++ List.replicate k2 0) ∧
    (mScanState st).m_available = st.m_available ∧
    (sScanState st).s_available = st.s_available ∧
    (∀ t i, taskM_need (mScanState st) t i = taskM_need st t i) ∧
    (∀ t i, taskM_alloc (mScanState st) t i = taskM_alloc st t i) ∧
    (∀ t i, taskS_need (sScanState st) t i = taskS_need st t i) ∧
    (∀ t i, taskS_alloc (sScanState st) t i = taskS_alloc st t i) := by
  obtain ⟨-, hdv, -, hdp⟩ := detect_spec avail accts
  obtain ⟨-, hmn, hma, -, -, -⟩ := mScanState_tasks st
  obtain ⟨-, hsn, hsa, -, -, -⟩ := sScanState_tasks st
  exact ⟨fun t i => (hdv t i).1, fun t i => (hdv t i).2, hdp,
    rfl, rfl, hmn, hma, hsn, hsa⟩

/-! ### Claim C1 -/

theorem countFalse_replicate (n : Nat) : countFalse (List.replicate n false) = n := by
  induction n with
  | zero => rfl
  | succ n ih =>
    rw [List.replicate_succ]
    show (if false then 0 else 1) + countFalse (List.replicate n false) = n + 1
    rw [ih]
    simp only [if_neg Bool.false_ne_true]
    omega

theorem specRun_fixpoint (needs allocs : Nat → Nat → Nat) (n : Nat) (avail : List Nat) :
    specPass needs allocs (List.range n) { specRun needs allocs n avail with found := false }
      = { specRun needs allocs n avail with found := false } := by
  unfold specRun
  exact specLoop_fixpoint needs allocs (List.range n) (n + 1) false
    (List.replicate n false) avail [] (by rw [countFalse_replicate]; omega)

/-- The textbook safety test as run by `sys_mutex_lock` on the caller's
post-increment state: views of the mutex-class accounting, all tasks,
work starting from the class's available vector. -/
def mutexBanker (st : ProcState) (t0 : TaskAcct) (tid rid : Nat) : SpecSt :=
  specRun (acctNeed ((mutexAdjState st t0 tid rid).tasks.map mView))
    (acctAlloc ((mutexAdjState st t0 tid rid).tasks.map mView))
    ((mutexAdjState st t0 tid rid).tasks.map mView).length
    (mutexAdjState st t0 tid rid).m_available

/-- The textbook safety test as run by `sys_semaphore_down`. -/
def semBanker (st : ProcState) (t0 : TaskAcct) (tid rid : Nat) : SpecSt :=
  specRun (acctNeed ((semAdjState st t0 tid rid).tasks.map sView))
    (acctAlloc ((semAdjState st t0 tid rid).tasks.map sView))
    ((semAdjState st t0 tid rid).tasks.map sView).length
    (semAdjState st t0 tid rid).s_available

/-- The caller's entry in the scanned state stays present with its
speculatively incremented mutex-class need. -/
theorem mScan_caller_need (st : ProcState) (tid rid : Nat) (t0 : TaskAcct)
    (h : st.tasks.get? tid = some t0) :
    (mScanState (mutexAdjState st t0 tid rid)).tasks.get? tid
      = some ((mScanState (mutexAdjState st t0 tid rid)).tasks.getD tid noTask) ∧
    ((mScanState (mutexAdjState st t0 tid rid)).tasks.getD tid noTask).m_need.get? rid
      = some (taskM_need st tid rid + 1) := by
  have hlt : tid < st.tasks.length := lt_of_getQ_eq_some _ _ _ h
  obtain ⟨hmlen, hmn, hma, -, -, hmpad⟩ := mScanState_tasks (mutexAdjState st t0 tid rid)
  obtain ⟨halen, haq, hane, had⟩ := mutexAdjState_tasks st t0 tid rid h
  have hlt2 : tid < (mScanState (mutexAdjState st t0 tid rid)).tasks.length := by
    rw [hmlen, halen]; exact hlt
  refine ⟨getQ_eq_some_getD _ _ noTask hlt2, ?_⟩
  obtain ⟨k1, k2, hk1, hk2⟩ := hmpad tid
  have hlen3 : rid + 1 ≤
      ((mScanState (mutexAdjState st t0 tid rid)).tasks.getD tid noTask).m_need.length := by
    rw [hk1, had, List.length_append]
    dsimp only
    have := length_le_adjust t0.m_need rid 1
    omega
  have hval : ((mScanState (mutexAdjState st t0 tid rid)).tasks.getD tid
      noTask).m_need.getD rid 0 = taskM_need st tid rid + 1 := by
    have h1 := hmn tid rid
    have h2 := (mutexAdjState_views st t0 tid rid h).2.2.2.2.1
    exact h1.trans h2
  have hq := getQ_eq_some_getD
    (((mScanState (mutexAdjState st t0 tid rid)).tasks.getD tid noTask).m_need) rid 0
    (by omega)
  rw [hval] at hq
  exact hq

/-- The caller's entry in the scanned state stays present with its
speculatively incremented semaphore-class need. -/
theorem sScan_caller_need (st : ProcState) (tid rid : Nat) (t0 : TaskAcct)
    (h : st.tasks.get? tid = some t0) :
    (sScanState (semAdjState st t0 tid rid)).tasks.get? tid
      = some ((sScanState (semAdjState st t0 tid rid)).tasks.getD tid noTask) ∧
    ((sScanState (semAdjState st t0 tid rid)).tasks.getD tid noTask).s_need.get? rid
      = some (taskS_need st tid rid + 1) := by
  have hlt : tid < st.tasks.length := lt_of_getQ_eq_some _ _ _ h
  obtain ⟨hmlen, hmn, hma, -, -, hmpad⟩ := sScanState_tasks (semAdjState st t0 tid rid)
  obtain ⟨halen, haq, hane, had⟩ := semAdjState_tasks st t0 tid rid h
  have hlt2 : tid < (sScanState (semAdjState st t0 tid rid)).tasks.length := by
    rw [hmlen, halen]; exact hlt
  refine ⟨getQ_eq_some_getD _ _ noTask hlt2, ?_⟩
  obtain ⟨k1, k2, hk1, hk2⟩ := hmpad tid
  have hlen3 : rid + 1 ≤
      ((sScanState (semAdjState st t0 tid rid)).tasks.getD tid noTask).s_need.length := by
    rw [hk1, had, List.length_append]
    dsimp only
    have := length_le_adjust t0.s_need rid 1
    omega
  have hval : ((sScanState (semAdjState st t0 tid rid)).tasks.getD tid
      noTask).s_need.getD rid 0 = taskS_need st tid rid + 1 := by
    have h1 := hmn tid rid
    have h2 := (semAdjState_views st t0 tid rid h).2.2.2.2.1
    exact h1.trans h2
  have hq := getQ_eq_some_getD
    (((sScanState (semAdjState st t0 tid rid)).tasks.getD tid noTask).s_need) rid 0
    (by omega)
  rw [hval] at hq
  exact hq

/-- C1: with detection enabled, the detector run by `sys_mutex_lock` (and
analogously `sys_semaphore_down`) computes exactly the textbook Banker
safety test on the post-increment state: its finish vector and finishing
order equal those of the spec-modelled textbook run (work starting as a
clone of available, finish starting all-false, ascending first-fit
passes), the textbook run ends at a pass that makes no progress, and the
call returns -0xDEAD exactly when some task is then still unfinished. -/
theorem c1_detector_is_textbook (st : ProcState) (tid rid : Nat) (t0 : TaskAcct)
    (h : st.tasks.get? tid = some t0) (hflag : st.use_dead_lock = true) :
    ((detect (mutexAdjState st t0 tid rid).m_available
        ((mutexAdjState st t0 tid rid).tasks.map mView)).finish
        = (mutexBanker st t0 tid rid).finish ∧
     (detect (mutexAdjState st t0 tid rid).m_available
        ((mutexAdjState st t0 tid rid).tasks.map mView)).order
        = (mutexBanker st t0 tid rid).order ∧
     specPass (acctNeed ((mutexAdjState st t0 tid rid).tasks.map mView))
        (acctAlloc ((mutexAdjState st t0 tid rid).tasks.map mView))
        (List.range ((mutexAdjState st t0 tid rid).tasks.map mView).length)
        { mutexBanker st t0 tid rid with found := false }
        = { mutexBanker st t0 tid rid with found := false } ∧
     ((∃ r, sys_mutex_lock st tid rid = some r ∧ r.ret = -0xDEAD) ↔
        (mutexBanker st t0 tid rid).finish.any (fun x => x == false) = true)) ∧
    ((detect (semAdjState st t0 tid rid).s_available
        ((semAdjState st t0 tid rid).tasks.map sView)).finish
        = (semBanker st t0 tid rid).finish ∧
     (detect (semAdjState st t0 tid rid).s_available
        ((semAdjState st t0 tid rid).tasks.map sView)).order
        = (semBanker st t0 tid rid).order ∧
     specPass (acctNeed ((semAdjState st t0 tid rid).tasks.map sView))
        (acctAlloc ((semAdjState st t0 tid rid).tasks.map sView))
        (List.range ((semAdjState st t0 tid rid).tasks.map sView).length)
        { semBanker st t0 tid rid with found := false }
        = { semBanker st t0 tid rid with found := false } ∧
     ((∃ r, sys_semaphore_down st tid rid = some r ∧ r.ret = -0xDEAD) ↔
        (semBanker st t0 tid rid).finish.any (fun x => x == false) = true)) := by
  constructor
  · obtain ⟨hds, -, -, -⟩ := detect_spec (mutexAdjState st t0 tid rid).m_available
      ((mutexAdjState st t0 tid rid).tasks.map mView)
    have hfin : (detect (mutexAdjState st t0 tid rid).m_available
        ((mutexAdjState st t0 tid rid).tasks.map mView)).finish
        = (mutexBanker st t0 tid rid).finish := congrArg SpecSt.finish hds
    refine ⟨hfin, congrArg SpecSt.order hds, specRun_fixpoint _ _ _ _, ?_⟩
    rw [sys_mutex_lock_eq st tid rid t0 h]
    have hfl : (mutexAdjState st t0 tid rid).use_dead_lock = true := hflag
    rw [if_pos hfl]
    constructor
    · rintro ⟨r, hr, hret⟩
      by_cases hany : (detect (mutexAdjState st t0 tid rid).m_available
          ((mutexAdjState st t0 tid rid).tasks.map mView)).finish.any
          (fun x => x == false) = true
      · rw [← hfin]; exact hany
      · rw [if_neg hany] at hr
        have := (mutexCommit_ret _ tid rid r hr).1
        rw [this] at hret
        exact absurd hret (by decide)
    · intro hany2
      have hany : (detect (mutexAdjState st t0 tid rid).m_available
          ((mutexAdjState st t0 tid rid).tasks.map mView)).finish.any
          (fun x => x == false) = true := by rw [hfin]; exact hany2
      rw [if_pos hany]
      obtain ⟨hq, hneedq⟩ := mScan_caller_need st tid rid t0 h
      exact ⟨_, mutexRollback_eq _ tid rid _ (taskM_need st tid rid) hq hneedq, rfl⟩
  · obtain ⟨hds, -, -, -⟩ := detect_spec (semAdjState st t0 tid rid).s_available
      ((semAdjState st t0 tid rid).tasks.map sView)
    have hfin : (detect (semAdjState st t0 tid rid).s_available
        ((semAdjState st t0 tid rid).tasks.map sView)).finish
        = (semBanker st t0 tid rid).finish := congrArg SpecSt.finish hds
    refine ⟨hfin, congrArg SpecSt.order hds, specRun_fixpoint _ _ _ _, ?_⟩
    rw [sys_semaphore_down_eq st tid rid t0 h]
    have hfl : (semAdjState st t0 tid rid).use_dead_lock = true := hflag
    rw [if_pos hfl]
    constructor
    · rintro ⟨r, hr, hret⟩
      by_cases hany : (detect (semAdjState st t0 tid rid).s_available
          ((semAdjState st t0 tid rid).tasks.map sView)).finish.any
          (fun x => x == false) = true
      · rw [← hfin]; exact hany
      · rw [if_neg hany] at hr
        have := (semCommit_ret _ tid rid r hr).1
        rw [this] at hret
        exact absurd hret (by decide)
    · intro hany2
      have hany : (detect (semAdjState st t0 tid rid).s_available
          ((semAdjState st t0 tid rid).tasks.map sView)).finish.any
          (fun x => x == false) = true := by rw [hfin]; exact hany2
      rw [if_pos hany]
      obtain ⟨hq, hneedq⟩ := sScan_caller_need st tid rid t0 h
      exact ⟨_, semRollback_eq _ tid rid _ (taskS_need st tid rid) hq hneedq, rfl⟩

/-- Two-task circular-wait state (each task holds one mutex and needs the
other) used to witness C1. -/
def c1state : ProcState :=
  ⟨[0, 0], [1], true,
   [⟨[0, 0], [1, 0], [0], [0]⟩, ⟨[1, 0], [0, 1], [0], [0]⟩],
   [some true, some true], [some 1], []⟩

/-- Witness for C1: on the circular-wait state, task 0's request for
mutex 1 is refused with -0xDEAD, and the detector matches the textbook
run. -/
theorem c1_detector_is_textbook_witness :
    (∃ r, sys_mutex_lock c1state 0 1 = some r ∧ r.ret = -0xDEAD) ∧
    (detect (mutexAdjState c1state ⟨[0, 0], [1, 0], [0], [0]⟩ 0 1).m_available
        ((mutexAdjState c1state ⟨[0, 0], [1, 0], [0], [0]⟩ 0 1).tasks.map mView)).finish
      = (mutexBanker c1state ⟨[0, 0], [1, 0], [0], [0]⟩ 0 1).finish := by
  have hC := c1_detector_is_textbook c1state 0 1 ⟨[0, 0], [1, 0], [0], [0]⟩
    (by decide) (by decide)
  exact ⟨hC.1.2.2.2.mpr (by decide), hC.1.1⟩

/-! ### Claim C3 -/

theorem sys_mutex_lock_noTid (st : ProcState) (tid mid : Nat)
    (h : st.tasks.get? tid = none) : sys_mutex_lock st tid mid = none := by
  unfold sys_mutex_lock
  rw [h]

theorem sys_semaphore_down_noTid (st : ProcState) (tid sid : Nat)
    (h : st.tasks.get? tid = none) : sys_semaphore_down st tid sid = none := by
  unfold sys_semaphore_down
  rw [h]

/-- Everything the mutex rollback block touches: the caller's need entry
for the requested id is decremented by one, nothing else changes. -/
theorem mutexRollback_state (stS : ProcState) (tid rid : Nat) (r : SysResult)
    (h : mutexRollback stS tid rid = some r) :
    r.ret = -0xDEAD ∧ r.invoked = false ∧
    r.state.m_available = stS.m_available ∧ r.state.s_available = stS.s_available ∧
    (∀ t i, taskM_alloc r.state t i = taskM_alloc stS t i) ∧
    (∀ t i, taskS_alloc r.state t i = taskS_alloc stS t i) ∧
    taskM_need r.state tid rid + 1 = taskM_need stS tid rid := by
  obtain ⟨t, n, hq, hneedq, hreq⟩ := mutexRollback_inv stS tid rid r h
  subst hreq
  have hlt : tid < stS.tasks.length := lt_of_getQ_eq_some _ _ _ hq
  have hgd : stS.tasks.getD tid noTask = t := getD_eq_of_getQ _ _ _ _ hq
  have hltn : rid < t.m_need.length := lt_of_getQ_eq_some _ _ _ hneedq
  have hvn : t.m_need.getD rid 0 = n + 1 := getD_eq_of_getQ _ _ _ _ hneedq
  refine ⟨rfl, rfl, rfl, rfl, ?_, ?_, ?_⟩
  · intro t2 i
    dsimp only [taskM_alloc]
    rcases eq_or_ne t2 tid with rfl | hne
    · rw [getD_set_self _ _ _ _ hlt, hgd]
    · rw [getD_set_ne _ _ _ _ _ hne]
  · intro t2 i
    dsimp only [taskS_alloc]
    rcases eq_or_ne t2 tid with rfl | hne
    · rw [getD_set_self _ _ _ _ hlt, hgd]
    · rw [getD_set_ne _ _ _ _ _ hne]
  · dsimp only [taskM_need]
    rw [getD_set_self _ _ _ _ hlt, hgd, hvn]
    dsimp only
    rw [getD_set_self _ _ _ _ hltn]

/-- Semaphore-class analogue of `mutexRollback_state`. -/
theorem semRollback_state (stS : ProcState) (tid rid : Nat) (r : SysResult)
    (h : semRollback stS tid rid = some r) :
    r.ret = -0xDEAD ∧ r.invoked = false ∧
    r.state.m_available = stS.m_available ∧ r.state.s_available = stS.s_available ∧
    (∀ t i, taskM_alloc r.state t i = taskM_alloc stS t i) ∧
    (∀ t i, taskS_alloc r.state t i = taskS_alloc stS t i) ∧
    taskS_need r.state tid rid + 1 = taskS_need stS tid rid := by
  obtain ⟨t, n, hq, hneedq, hreq⟩ := semRollback_inv stS tid rid r h
  subst hreq
  have hlt : tid < stS.tasks.length := lt_of_getQ_eq_some _ _ _ hq
  have hgd : stS.tasks.getD tid noTask = t := getD_eq_of_getQ _ _ _ _ hq
  have hltn : rid < t.s_need.length := lt_of_getQ_eq_some _ _ _ hneedq
  have hvn : t.s_need.getD rid 0 = n + 1 := getD_eq_of_getQ _ _ _ _ hneedq
  refine ⟨rfl, rfl, rfl, rfl, ?_, ?_, ?_⟩
  · intro t2 i
    dsimp only [taskM_alloc]
    rcases eq_or_ne t2 tid with rfl | hne
    · rw [getD_set_self _ _ _ _ hlt, hgd]
    · rw [getD_set_ne _ _ _ _ _ hne]
  · intro t2 i
    dsimp only [taskS_alloc]
    rcases eq_or_ne t2 tid with rfl | hne
    · rw [getD_set_self _ _ _ _ hlt, hgd]
    · rw [getD_set_ne _ _ _ _ _ hne]
  · dsimp only [taskS_need]
    rw [getD_set_self _ _ _ _ hlt, hgd, hvn]
    dsimp only
    rw [getD_set_self _ _ _ _ hltn]

/-- C3: whenever `sys_mutex_lock` or `sys_semaphore_down` returns
-0xDEAD, the caller's need entry for the requested resource is back at
its pre-call value, no task's allocation entry of either class and
neither process available vector has changed, and the underlying
mechanism (`lock()` / `down()`) was not invoked. -/
theorem c3_rollback_clean (st : ProcState) (tid rid : Nat) (r : SysResult) :
    (sys_mutex_lock st tid rid = some r → r.ret = -0xDEAD →
      r.invoked = false ∧
      r.state.m_available = st.m_available ∧
      r.state.s_available = st.s_available ∧
      (∀ t i, taskM_alloc r.state t i = taskM_alloc st t i) ∧
      (∀ t i, taskS_alloc r.state t i = taskS_alloc st t i) ∧
      taskM_need r.state tid rid = taskM_need st tid rid) ∧
    (sys_semaphore_down st tid rid = some r → r.ret = -0xDEAD →
      r.invoked = false ∧
      r.state.m_available = st.m_available ∧
      r.state.s_available = st.s_available ∧
      (∀ t i, taskM_alloc r.state t i = taskM_alloc st t i) ∧
      (∀ t i, taskS_alloc r.state t i = taskS_alloc st t i) ∧
      taskS_need r.state tid rid = taskS_need st tid rid) := by
  constructor
  · intro hr hret
    cases hg : st.tasks.get? tid with
    | none => rw [sys_mutex_lock_noTid st tid rid hg] at hr; exact Option.noConfusion hr
    | some t0 =>
      rw [sys_mutex_lock_eq st tid rid t0 hg] at hr
      by_cases hfl : (mutexAdjState st t0 tid rid).use_dead_lock = true
      · rw [if_pos hfl] at hr
        by_cases hany : (detect (mutexAdjState st t0 tid rid).m_available
            ((mutexAdjState st t0 tid rid).tasks.map mView)).finish.any
            (fun x => x == false) = true
        · rw [if_pos hany] at hr
          obtain ⟨hret2, hinv, hav, hsv, hma, hsa, hneed⟩ :=
            mutexRollback_state _ tid rid r hr
          obtain ⟨-, hmn, hma2, hsn2, hsa2, -⟩ :=
            mScanState_tasks (mutexAdjState st t0 tid rid)
          obtain ⟨hva, hvsa, hvsn, -, hvtid, -⟩ :=
            mutexAdjState_views st t0 tid rid hg
          refine ⟨hinv, hav, hsv, ?_, ?_, ?_⟩
          · intro t i
            rw [hma t i, hma2 t i, hva t i]
          · intro t i
            rw [hsa t i]
            show ((mScanState (mutexAdjState st t0 tid rid)).tasks.getD t
              noTask).s_allocation.getD i 0 = _
            rw [hsa2 t]
            exact hvsa t i
          · have h2 : taskM_need (mScanState (mutexAdjState st t0 tid rid)) tid rid
                = taskM_need st tid rid + 1 := (hmn tid rid).trans hvtid
            rw [h2] at hneed
            omega
        · rw [if_neg hany] at hr
          have h0 := (mutexCommit_ret _ tid rid r hr).1
          rw [h0] at hret
          exact absurd hret (by decide)
      · rw [if_neg hfl] at hr
        have h0 := (mutexCommit_ret _ tid rid r hr).1
        rw [h0] at hret
        exact absurd hret (by decide)
  · intro hr hret
    cases hg : st.tasks.get? tid with
    | none => rw [sys_semaphore_down_noTid st tid rid hg] at hr; exact Option.noConfusion hr
    | some t0 =>
      rw [sys_semaphore_down_eq st tid rid t0 hg] at hr
      by_cases hfl : (semAdjState st t0 tid rid).use_dead_lock = true
      · rw [if_pos hfl] at hr
        by_cases hany : (detect (semAdjState st t0 tid rid).s_available
            ((semAdjState st t0 tid rid).tasks.map sView)).finish.any
            (fun x => x == false) = true
        · rw [if_pos hany] at hr
          obtain ⟨hret2, hinv, hav, hsv, hma, hsa, hneed⟩ :=
            semRollback_state _ tid rid r hr
          obtain ⟨-, hsn, hsa2, hmn2, hma2, -⟩ :=
            sScanState_tasks (semAdjState st t0 tid rid)
          obtain ⟨hvsa, hvma, hvmn, -, hvtid, -⟩ :=
            semAdjState_views st t0 tid rid hg
          refine ⟨hinv, hav, hsv, ?_, ?_, ?_⟩
          · intro t i
            rw [hma t i]
            show ((sScanState (semAdjState st t0 tid rid)).tasks.getD t
              noTask).m_allocation.getD i 0 = _
            rw [hma2 t]
            exact hvma t i
          · intro t i
            rw [hsa t i, hsa2 t i, hvsa t i]
          · have h2 : taskS_need (sScanState (semAdjState st t0 tid rid)) tid rid
                = taskS_need st tid rid + 1 := (hsn tid rid).trans hvtid
            rw [h2] at hneed
            omega
        · rw [if_neg hany] at hr
          have h0 := (semCommit_ret _ tid rid r hr).1
          rw [h0] at hret
          exact absurd hret (by decide)
      · rw [if_neg hfl] at hr
        have h0 := (semCommit_ret _ tid rid r hr).1
        rw [h0] at hret
        exact absurd hret (by decide)

/-- Two-task semaphore circular-wait state used to witness C3. -/
def c3state : ProcState :=
  ⟨[], [0, 0], true,
   [⟨[], [], [0, 0], [1, 0]⟩, ⟨[], [], [1, 0], [0, 1]⟩],
   [], [some 1, some 1], []⟩

/-- Witness for C3: the refused `sys_semaphore_down` on `c3state` leaves
the state untouched and does not invoke the mechanism. -/
theorem c3_rollback_clean_witness :
    (⟨-0xDEAD, false, c3state⟩ : SysResult).invoked = false ∧
    (⟨-0xDEAD, false, c3state⟩ : SysResult).state.m_available = c3state.m_available ∧
    (⟨-0xDEAD, false, c3state⟩ : SysResult).state.s_available = c3state.s_available ∧
    (∀ t i, taskM_alloc (⟨-0xDEAD, false, c3state⟩ : SysResult).state t i
      = taskM_alloc c3state t i) ∧
    (∀ t i, taskS_alloc (⟨-0xDEAD, false, c3state⟩ : SysResult).state t i
      = taskS_alloc c3state t i) ∧
    taskS_need (⟨-0xDEAD, false, c3state⟩ : SysResult).state 0 1
      = taskS_need c3state 0 1 :=
  (c3_rollback_clean c3state 0 1 ⟨-0xDEAD, false, c3state⟩).2 (by decide) (by decide)

/-! ### Claim C4: conservation of units -/

/-- Sum over all tasks of the mutex-class allocation entry `r`. -/
def allocSumM (tasks : List TaskAcct) (r : Nat) : Nat :=
  (tasks.map (fun t => t.m_allocation.getD r 0)).sum

/-- Sum over all tasks of the semaphore-class allocation entry `r`. -/
def allocSumS (tasks : List TaskAcct) (r : Nat) : Nat :=
  (tasks.map (fun t => t.s_allocation.getD r 0)).sum

/-- The conservation invariant: for every populated resource id, the
allocations plus the available units equal the capacity (1 for a mutex,
the creation count for a semaphore). -/
def SyncInv (st : ProcState) : Prop :=
  (∀ r, r < st.mutex_list.length → st.mutex_list.getD r none ≠ none →
    allocSumM st.tasks r + st.m_available.getD r 0 = 1) ∧
  (∀ r, r < st.semaphore_list.length → st.semaphore_list.getD r none ≠ none →
    allocSumS st.tasks r + st.s_available.getD r 0
      = (st.semaphore_list.getD r none).getD 0)

theorem sum_map_set (f : TaskAcct → Nat) :
    ∀ (tasks : List TaskAcct) (tid : Nat) (t t2 : TaskAcct),
    tasks.get? tid = some t →
    ((tasks.set tid t2).map f).sum + f t = (tasks.map f).sum + f t2 := by
  intro tasks
  induction tasks with
  | nil => intro tid t t2 h; simp at h
  | cons a l ih =>
    intro tid t t2 h
    cases tid with
    | zero =>
      have ha : a = t := by simpa using h
      subst ha
      simp only [List.set_cons_zero, List.map_cons, List.sum_cons]
      omega
    | succ tid =>
      have := ih tid t t2 (by simpa using h)
      simp only [List.set_cons_succ, List.map_cons, List.sum_cons]
      omega

theorem sum_map_congr (f g : TaskAcct → Nat) :
    ∀ (l1 l2 : List TaskAcct), l1.length = l2.length →
    (∀ t, t < l1.length → f (l1.getD t noTask) = g (l2.getD t noTask)) →
    (l1.map f).sum = (l2.map g).sum := by
  intro l1
  induction l1 with
  | nil =>
    intro l2 h he
    rw [(List.length_eq_zero.mp h.symm : l2 = [])]
    rfl
  | cons a l ih =>
    intro l2 h he
    cases l2 with
    | nil => simp at h
    | cons b l2 =>
      simp only [List.map_cons, List.sum_cons]
      have h0 := he 0 (by simp)
      simp only [List.getD_cons_zero] at h0
      rw [h0, ih l2 (by simpa using h)
        (fun t ht => by simpa [List.getD_cons_succ] using he (t + 1) (by simpa using ht))]

theorem sum_map_eq_zero (f : TaskAcct → Nat) :
    ∀ (l : List TaskAcct), (∀ t, t < l.length → f (l.getD t noTask) = 0) →
    (l.map f).sum = 0 := by
  intro l
  induction l with
  | nil => intro h; rfl
  | cons a l ih =>
    intro h
    simp only [List.map_cons, List.sum_cons]
    rw [(by simpa using h 0 (by simp) : f a = 0),
      ih (fun t ht => by simpa [List.getD_cons_succ] using h (t + 1) (by simpa using ht))]

theorem getD_map_task (g : TaskAcct → TaskAcct) :
    ∀ (l : List TaskAcct) (t : Nat), t < l.length →
    (l.map g).getD t noTask = g (l.getD t noTask) := by
  intro l
  induction l with
  | nil => intro t ht; simp at ht
  | cons a l ih =>
    intro t ht
    cases t with
    | zero => rfl
    | succ t => exact ih t (by simpa using ht)

theorem getD_append_left {α : Type} :
    ∀ (l l2 : List α) (j : Nat) (d : α), j < l.length →
    (l ++ l2).getD j d = l.getD j d := by
  intro l
  induction l with
  | nil => intro l2 j d h; simp at h
  | cons a l ih =>
    intro l2 j d h
    cases j with
    | zero => rfl
    | succ j =>
      simp only [List.cons_append, List.getD_cons_succ]
      exact ih l2 j d (by simpa using h)

theorem lt_of_getD_occupied {α : Type} (l : List (Option α)) (j : Nat)
    (h : l.getD j none ≠ none) : j < l.length := by
  by_contra h2
  exact h (getD_eq_default_of_le l j none (by omega))

theorem mem_getD {α : Type} : ∀ (l : List α) (t : Nat) (d : α), t < l.length →
    l.getD t d ∈ l := by
  intro l
  induction l with
  | nil => intro t d h; simp at h
  | cons a l ih =>
    intro t d h
    cases t with
    | zero => simp
    | succ t =>
      simp only [List.getD_cons_succ]
      exact List.mem_cons_of_mem a (ih t d (by simpa using h))

theorem getD_append_self {α : Type} : ∀ (l : List α) (x d : α),
    (l ++ [x]).getD l.length d = x := by
  intro l
  induction l with
  | nil => intro x d; rfl
  | cons a l ih => intro x d; exact ih x d

/-- Replacing a task by one with the same allocation vectors (only its
need changed) preserves the conservation invariant. -/
theorem SyncInv_set_need (st : ProcState) (tid : Nat) (t t2 : TaskAcct)
    (hq : st.tasks.get? tid = some t)
    (hma : t2.m_allocation = t.m_allocation) (hsa : t2.s_allocation = t.s_allocation)
    (hI : SyncInv st) :
    SyncInv { st with tasks := st.tasks.set tid t2 } := by
  obtain ⟨hM, hS⟩ := hI
  constructor
  · intro r hr hocc
    dsimp only at hr hocc ⊢
    have hs := sum_map_set (fun x => x.m_allocation.getD r 0) st.tasks tid t t2 hq
    dsimp only at hs
    rw [hma] at hs
    have hbase := hM r hr hocc
    unfold allocSumM at hbase ⊢
    omega
  · intro r hr hocc
    dsimp only at hr hocc ⊢
    have hs := sum_map_set (fun x => x.s_allocation.getD r 0) st.tasks tid t t2 hq
    dsimp only at hs
    rw [hsa] at hs
    have hbase := hS r hr hocc
    unfold allocSumS at hbase ⊢
    omega

/-- The scan wrapper of `sys_mutex_lock` preserves the invariant. -/
theorem SyncInv_mScan (st : ProcState) (hI : SyncInv st) : SyncInv (mScanState st) := by
  obtain ⟨hM, hS⟩ := hI
  obtain ⟨hlen, -, hma, -, hsa, -⟩ := mScanState_tasks st
  constructor
  · intro r hr hocc
    have hsum : allocSumM (mScanState st).tasks r = allocSumM st.tasks r := by
      unfold allocSumM
      exact sum_map_congr _ _ _ _ hlen (fun t ht => hma t r)
    show allocSumM (mScanState st).tasks r + st.m_available.getD r 0 = 1
    rw [hsum]
    exact hM r hr hocc
  · intro r hr hocc
    have hsum : allocSumS (mScanState st).tasks r = allocSumS st.tasks r := by
      unfold allocSumS
      exact sum_map_congr _ _ _ _ hlen (fun t ht => by rw [hsa t])
    show allocSumS (mScanState st).tasks r + st.s_available.getD r 0 = _
    rw [hsum]
    exact hS r hr hocc

/-- The scan wrapper of `sys_semaphore_down` preserves the invariant. -/
theorem SyncInv_sScan (st : ProcState) (hI : SyncInv st) : SyncInv (sScanState st) := by
  obtain ⟨hM, hS⟩ := hI
  obtain ⟨hlen, -, hsa, -, hma, -⟩ := sScanState_tasks st
  constructor
  · intro r hr hocc
    have hsum : allocSumM (sScanState st).tasks r = allocSumM st.tasks r := by
      unfold allocSumM
      exact sum_map_congr _ _ _ _ hlen (fun t ht => by rw [hma t])
    show allocSumM (sScanState st).tasks r + st.m_available.getD r 0 = 1
    rw [hsum]
    exact hM r hr hocc
  · intro r hr hocc
    have hsum : allocSumS (sScanState st).tasks r = allocSumS st.tasks r := by
      unfold allocSumS
      exact sum_map_congr _ _ _ _ hlen (fun t ht => hsa t r)
    show allocSumS (sScanState st).tasks r + st.s_available.getD r 0 = _
    rw [hsum]
    exact hS r hr hocc

/-- The commit block of `sys_mutex_lock` preserves the invariant. -/
theorem SyncInv_mutexCommit (st : ProcState) (tid mid : Nat) (r : SysResult)
    (hI : SyncInv st) (h : mutexCommit st tid mid = some r) : SyncInv r.state := by
  obtain ⟨t, n, a, v, b, hq, hn, ha, hv, hb, hreq⟩ := mutexCommit_inv st tid mid r h
  subst hreq
  obtain ⟨hM, hS⟩ := hI
  have halt : mid < t.m_allocation.length := lt_of_getQ_eq_some _ _ _ ha
  have havl : mid < st.m_available.length := lt_of_getQ_eq_some _ _ _ hv
  have hav : st.m_available.getD mid 0 = v + 1 := getD_eq_of_getQ _ _ _ _ hv
  have haval : t.m_allocation.getD mid 0 = a := getD_eq_of_getQ _ _ _ _ ha
  constructor
  · intro rr hrr hocc
    dsimp only at hrr hocc ⊢
    have hs := sum_map_set (fun x => x.m_allocation.getD rr 0) st.tasks tid t
      { t with m_need := t.m_need.set mid n,
               m_allocation := t.m_allocation.set mid (a + 1) } hq
    dsimp only at hs
    have hbase := hM rr hrr hocc
    rcases eq_or_ne rr mid with rfl | hne
    · rw [getD_set_self _ _ _ _ havl]
      rw [getD_set_self _ _ _ _ halt, haval] at hs
      rw [hav] at hbase
      unfold allocSumM at hbase ⊢
      omega
    · rw [getD_set_ne _ _ _ _ _ hne]
      rw [getD_set_ne _ _ _ _ _ hne] at hs
      unfold allocSumM at hbase ⊢
      omega
  · intro rr hrr hocc
    dsimp only at hrr hocc ⊢
    have hs := sum_map_set (fun x => x.s_allocation.getD rr 0) st.tasks tid t
      { t with m_need := t.m_need.set mid n,
               m_allocation := t.m_allocation.set mid (a + 1) } hq
    dsimp only at hs
    have hbase := hS rr hrr hocc
    unfold allocSumS at hbase ⊢
    omega

/-- The commit block of `sys_semaphore_down` preserves the invariant. -/
theorem SyncInv_semCommit (st : ProcState) (tid sid : Nat) (r : SysResult)
    (hI : SyncInv st) (h : semCommit st tid sid = some r) : SyncInv r.state := by
  obtain ⟨t, hq, hc⟩ := semCommit_inv st tid sid r h
  rcases hc with ⟨-, -, hreq⟩ | ⟨n, v, b, hv, hn, hb, hreq⟩
  · rw [hreq]; exact hI
  · subst hreq
    obtain ⟨hM, hS⟩ := hI
    have havl : sid < st.s_available.length := lt_of_getQ_eq_some _ _ _ hv
    have hav : st.s_available.getD sid 0 = v + 1 := getD_eq_of_getQ _ _ _ _ hv
    constructor
    · intro rr hrr hocc
      dsimp only at hrr hocc ⊢
      have hs := sum_map_set (fun x => x.m_allocation.getD rr 0) st.tasks tid t
        { t with s_need := t.s_need.set sid n,
                 s_allocation := adjust t.s_allocation sid 1 } hq
      dsimp only at hs
      have hbase := hM rr hrr hocc
      unfold allocSumM at hbase ⊢
      omega
    · intro rr hrr hocc
      dsimp only at hrr hocc ⊢
      have hs := sum_map_set (fun x => x.s_allocation.getD rr 0) st.tasks tid t
        { t with s_need := t.s_need.set sid n,
                 s_allocation := adjust t.s_allocation sid 1 } hq
      dsimp only at hs
      have hbase := hS rr hrr hocc
      rcases eq_or_ne rr sid with rfl | hne
      · rw [getD_set_self _ _ _ _ havl]
        rw [getD_adjust_self] at hs
        rw [hav] at hbase
        unfold allocSumS at hbase ⊢
        omega
      · rw [getD_set_ne _ _ _ _ _ hne]
        rw [getD_adjust_ne _ _ _ _ hne] at hs
        unfold allocSumS at hbase ⊢
        omega

/-- `sys_mutex_unlock` preserves the invariant. -/
theorem SyncInv_mutexUnlock (st : ProcState) (tid mid : Nat) (r : SysResult)
    (hI : SyncInv st) (h : sys_mutex_unlock st tid mid = some r) : SyncInv r.state := by
  obtain ⟨t, v, a, b, hq, hv, ha, hb, hreq⟩ := sys_mutex_unlock_inv st tid mid r h
  subst hreq
  obtain ⟨hM, hS⟩ := hI
  have halt : mid < t.m_allocation.length := lt_of_getQ_eq_some _ _ _ ha
  have havl : mid < st.m_available.length := lt_of_getQ_eq_some _ _ _ hv
  have hav : st.m_available.getD mid 0 = v := getD_eq_of_getQ _ _ _ _ hv
  have haval : t.m_allocation.getD mid 0 = a + 1 := getD_eq_of_getQ _ _ _ _ ha
  constructor
  · intro rr hrr hocc
    dsimp only at hrr hocc ⊢
    have hs := sum_map_set (fun x => x.m_allocation.getD rr 0) st.tasks tid t
      { t with m_allocation := t.m_allocation.set mid a } hq
    dsimp only at hs
    have hbase := hM rr hrr hocc
    rcases eq_or_ne rr mid with rfl | hne
    · rw [getD_set_self _ _ _ _ havl]
      rw [getD_set_self _ _ _ _ halt, haval] at hs
      rw [hav] at hbase
      unfold allocSumM at hbase ⊢
      omega
    · rw [getD_set_ne _ _ _ _ _ hne]
      rw [getD_set_ne _ _ _ _ _ hne] at hs
      unfold allocSumM at hbase ⊢
      omega
  · intro rr hrr hocc
    dsimp only at hrr hocc ⊢
    have hs := sum_map_set (fun x => x.s_allocation.getD rr 0) st.tasks tid t
      { t with m_allocation := t.m_allocation.set mid a } hq
    dsimp only at hs
    have hbase := hS rr hrr hocc
    unfold allocSumS at hbase ⊢
    omega

/-- `sys_semaphore_up` preserves the invariant. -/
theorem SyncInv_semUp (st : ProcState) (tid sid : Nat) (r : SysResult)
    (hI : SyncInv st) (h : sys_semaphore_up st tid sid = some r) : SyncInv r.state := by
  obtain ⟨b, v, t, a, hb, hv, hq, ha, hreq⟩ := sys_semaphore_up_inv st tid sid r h
  subst hreq
  obtain ⟨hM, hS⟩ := hI
  have halt : sid < t.s_allocation.length := lt_of_getQ_eq_some _ _ _ ha
  have havl : sid < st.s_available.length := lt_of_getQ_eq_some _ _ _ hv
  have hav : st.s_available.getD sid 0 = v := getD_eq_of_getQ _ _ _ _ hv
  have haval : t.s_allocation.getD sid 0 = a + 1 := getD_eq_of_getQ _ _ _ _ ha
  constructor
  · intro rr hrr hocc
    dsimp only at hrr hocc ⊢
    have hs := sum_map_set (fun x => x.m_allocation.getD rr 0) st.tasks tid t
      { t with s_allocation := t.s_allocation.set sid a } hq
    dsimp only at hs
    have hbase := hM rr hrr hocc
    unfold allocSumM at hbase ⊢
    omega
  · intro rr hrr hocc
    dsimp only at hrr hocc ⊢
    have hs := sum_map_set (fun x => x.s_allocation.getD rr 0) st.tasks tid t
      { t with s_allocation := t.s_allocation.set sid a } hq
    dsimp only at hs
    have hbase := hS rr hrr hocc
    rcases eq_or_ne rr sid with rfl | hne
    · rw [getD_set_self _ _ _ _ havl]
      rw [getD_set_self _ _ _ _ halt, haval] at hs
      rw [hav] at hbase
      unfold allocSumS at hbase ⊢
      omega
    · rw [getD_set_ne _ _ _ _ _ hne]
      rw [getD_set_ne _ _ _ _ _ hne] at hs
      unfold allocSumS at hbase ⊢
      omega

theorem findNone_of_full {α : Type} (l : List (Option α))
    (hFull : ∀ j, j < l.length → l.getD j none ≠ none) : findNone l = none := by
  cases hf : findNone l with
  | none => rfl
  | some i =>
    obtain ⟨h1, -⟩ := findNone_some l i hf
    exact absurd (getD_eq_of_getQ _ _ _ none h1) (hFull i (lt_of_getQ_eq_some _ _ _ h1))

/-- In a state with no empty mutex slot and index-aligned vectors,
`sys_mutex_create` establishes the invariant for the new id and
preserves it for all others. -/
theorem SyncInv_mutexCreate (st : ProcState) (blocking : Bool)
    (hI : SyncInv st)
    (hFull : ∀ j, j < st.mutex_list.length → st.mutex_list.getD j none ≠ none)
    (hA : st.m_available.length ≤ st.mutex_list.length)
    (hT : ∀ t, t ∈ st.tasks → t.m_allocation.length ≤ st.mutex_list.length) :
    SyncInv (sys_mutex_create st blocking).2 := by
  obtain ⟨hM, hS⟩ := hI
  have hf : findNone st.mutex_list = none := findNone_of_full _ hFull
  have hs : mutexSlot st = st.mutex_list.length := by unfold mutexSlot; rw [hf]
  have hlist : (sys_mutex_create st blocking).2.mutex_list
      = st.mutex_list ++ [some blocking] := by
    show (match findNone st.mutex_list with
      | some i => st.mutex_list.set i (some blocking)
      | none => st.mutex_list ++ [some blocking]) = _
    rw [hf]
  have hlen : (sys_mutex_create st blocking).2.mutex_list.length
      = st.mutex_list.length + 1 := by
    rw [hlist, List.length_append, List.length_cons, List.length_nil]
  constructor
  · intro rr hrr hocc
    rw [hlen] at hrr
    rw [hlist] at hocc
    show allocSumM (initTasksM st.tasks (mutexSlot st)) rr
        + (adjust st.m_available (mutexSlot st) 1).getD rr 0 = 1
    rw [hs]
    rcases Nat.lt_or_ge rr st.mutex_list.length with hlt | hge
    · have hocc2 : st.mutex_list.getD rr none ≠ none := by
        rw [getD_append_left _ _ _ _ hlt] at hocc
        exact hocc
      have hsum : allocSumM (initTasksM st.tasks st.mutex_list.length) rr
          = allocSumM st.tasks rr := by
        unfold allocSumM initTasksM
        refine sum_map_congr _ _ _ _ (List.length_map _ _) ?_
        intro t ht
        rw [List.length_map] at ht
        rw [getD_map_task _ _ _ ht]
        dsimp only
        rw [getD_adjust_zero]
      rw [hsum, getD_adjust_ne _ _ _ _ (by omega)]
      exact hM rr hlt hocc2
    · have hrr3 : rr = st.mutex_list.length := by omega
      subst hrr3
      have havail : (adjust st.m_available st.mutex_list.length 1).getD
          st.mutex_list.length 0 = 1 := by
        rw [getD_adjust_self, getD_eq_default_of_le _ _ _ hA]
      have hsum : allocSumM (initTasksM st.tasks st.mutex_list.length)
          st.mutex_list.length = 0 := by
        unfold allocSumM initTasksM
        refine sum_map_eq_zero _ _ ?_
        intro t ht
        rw [List.length_map] at ht
        rw [getD_map_task _ _ _ ht]
        dsimp only
        rw [getD_adjust_self,
          getD_eq_default_of_le _ _ _ (hT _ (mem_getD st.tasks t noTask ht))]
      rw [havail, hsum]
  · intro rr hrr hocc
    have hsl : (sys_mutex_create st blocking).2.semaphore_list = st.semaphore_list := rfl
    rw [hsl] at hrr hocc
    show allocSumS (initTasksM st.tasks (mutexSlot st)) rr
        + st.s_available.getD rr 0 = (st.semaphore_list.getD rr none).getD 0
    have hsum : allocSumS (initTasksM st.tasks (mutexSlot st)) rr
        = allocSumS st.tasks rr := by
      unfold allocSumS initTasksM
      refine sum_map_congr _ _ _ _ (List.length_map _ _) ?_
      intro t ht
      rw [List.length_map] at ht
      rw [getD_map_task _ _ _ ht]
    rw [hsum]
    exact hS rr hrr hocc

/-- Semaphore analogue of `SyncInv_mutexCreate`: the new id's capacity is
the supplied count. -/
theorem SyncInv_semCreate (st : ProcState) (cnt : Nat)
    (hI : SyncInv st)
    (hFull : ∀ j, j < st.semaphore_list.length → st.semaphore_list.getD j none ≠ none)
    (hA : st.s_available.length ≤ st.semaphore_list.length)
    (hT : ∀ t, t ∈ st.tasks → t.s_allocation.length ≤ st.semaphore_list.length) :
    SyncInv (sys_semaphore_create st cnt).2 := by
  obtain ⟨hM, hS⟩ := hI
  have hf : findNone st.semaphore_list = none := findNone_of_full _ hFull
  have hs : semSlot st = st.semaphore_list.length := by unfold semSlot; rw [hf]
  have hlist : (sys_semaphore_create st cnt).2.semaphore_list
      = st.semaphore_list ++ [some cnt] := by
    show (match findNone st.semaphore_list with
      | some i => st.semaphore_list.set i (some cnt)
      | none => st.semaphore_list ++ [some cnt]) = _
    rw [hf]
  have hlen : (sys_semaphore_create st cnt).2.semaphore_list.length
      = st.semaphore_list.length + 1 := by
    rw [hlist, List.length_append, List.length_cons, List.length_nil]
  constructor
  · intro rr hrr hocc
    have hml : (sys_semaphore_create st cnt).2.mutex_list = st.mutex_list := rfl
    rw [hml] at hrr hocc
    show allocSumM (initTasksS st.tasks (semSlot st)) rr
        + st.m_available.getD rr 0 = 1
    have hsum : allocSumM (initTasksS st.tasks (semSlot st)) rr
        = allocSumM st.tasks rr := by
      unfold allocSumM initTasksS
      refine sum_map_congr _ _ _ _ (List.length_map _ _) ?_
      intro t ht
      rw [List.length_map] at ht
      rw [getD_map_task _ _ _ ht]
    rw [hsum]
    exact hM rr hrr hocc
  · intro rr hrr hocc
    rw [hlen] at hrr
    rw [hlist] at hocc
    show allocSumS (initTasksS st.tasks (semSlot st)) rr
        + (adjust st.s_available (semSlot st) cnt).getD rr 0
        = ((sys_semaphore_create st cnt).2.semaphore_list.getD rr none).getD 0
    rw [hs, hlist]
    rcases Nat.lt_or_ge rr st.semaphore_list.length with hlt | hge
    · have hocc2 : st.semaphore_list.getD rr none ≠ none := by
        rw [getD_append_left _ _ _ _ hlt] at hocc
        exact hocc
      have hsum : allocSumS (initTasksS st.tasks st.semaphore_list.length) rr
          = allocSumS st.tasks rr := by
        unfold allocSumS initTasksS
        refine sum_map_congr _ _ _ _ (List.length_map _ _) ?_
        intro t ht
        rw [List.length_map] at ht
        rw [getD_map_task _ _ _ ht]
        dsimp only
        rw [getD_adjust_zero]
      rw [hsum, getD_adjust_ne _ _ _ _ (by omega), getD_append_left _ _ _ _ hlt]
      exact hS rr hlt hocc2
    · have hrr3 : rr = st.semaphore_list.length := by omega
      subst hrr3
      have havail : (adjust st.s_available st.semaphore_list.length cnt).getD
          st.semaphore_list.length 0 = cnt := by
        rw [getD_adjust_self, getD_eq_default_of_le _ _ _ hA]
        omega
      have hsum : allocSumS (initTasksS st.tasks st.semaphore_list.length)
          st.semaphore_list.length = 0 := by
        unfold allocSumS initTasksS
        refine sum_map_eq_zero _ _ ?_
        intro t ht
        rw [List.length_map] at ht
        rw [getD_map_task _ _ _ ht]
        dsimp only
        rw [getD_adjust_self,
          getD_eq_default_of_le _ _ _ (hT _ (mem_getD st.tasks t noTask ht))]
      rw [havail, hsum, getD_append_self]
      show 0 + cnt = cnt
      omega

/-- C4: the conservation equality (sum of allocations plus available
equals capacity, per populated resource id of each class) is preserved by
every complete execution of `sys_mutex_lock`, `sys_mutex_unlock`,
`sys_semaphore_down` and `sys_semaphore_up`, and is established at the
new id (and preserved at the old ones) by the creation syscalls from an
aligned full-table state, so it holds at every quiescent point. -/
theorem c4_conservation (st : ProcState) (tid rid : Nat) (r : SysResult)
    (blocking : Bool) (cnt : Nat) (hI : SyncInv st) :
    (sys_mutex_lock st tid rid = some r → SyncInv r.state) ∧
    (sys_mutex_unlock st tid rid = some r → SyncInv r.state) ∧
    (sys_semaphore_down st tid rid = some r → SyncInv r.state) ∧
    (sys_semaphore_up st tid rid = some r → SyncInv r.state) ∧
    ((∀ j, j < st.mutex_list.length → st.mutex_list.getD j none ≠ none) →
     st.m_available.length ≤ st.mutex_list.length →
     (∀ t, t ∈ st.tasks → t.m_allocation.length ≤ st.mutex_list.length) →
     SyncInv (sys_mutex_create st blocking).2) ∧
    ((∀ j, j < st.semaphore_list.length → st.semaphore_list.getD j none ≠ none) →
     st.s_available.length ≤ st.semaphore_list.length →
     (∀ t, t ∈ st.tasks → t.s_allocation.length ≤ st.semaphore_list.length) →
     SyncInv (sys_semaphore_create st cnt).2) := by
  refine ⟨?_, fun h => SyncInv_mutexUnlock st tid rid r hI h, ?_,
    fun h => SyncInv_semUp st tid rid r hI h,
    fun h1 h2 h3 => SyncInv_mutexCreate st blocking hI h1 h2 h3,
    fun h1 h2 h3 => SyncInv_semCreate st cnt hI h1 h2 h3⟩
  · intro hr
    cases hg : st.tasks.get? tid with
    | none => rw [sys_mutex_lock_noTid st tid rid hg] at hr; exact Option.noConfusion hr
    | some t0 =>
      rw [sys_mutex_lock_eq st tid rid t0 hg] at hr
      have hI1 : SyncInv (mutexAdjState st t0 tid rid) :=
        SyncInv_set_need st tid t0 _ hg rfl rfl hI
      by_cases hfl : (mutexAdjState st t0 tid rid).use_dead_lock = true
      · rw [if_pos hfl] at hr
        have hI2 := SyncInv_mScan _ hI1
        by_cases hany : (detect (mutexAdjState st t0 tid rid).m_available
            ((mutexAdjState st t0 tid rid).tasks.map mView)).finish.any
            (fun x => x == false) = true
        · rw [if_pos hany] at hr
          obtain ⟨t, n, hq, hneedq, hreq⟩ := mutexRollback_inv _ tid rid r hr
          rw [hreq]
          exact SyncInv_set_need _ tid t _ hq rfl rfl hI2
        · rw [if_neg hany] at hr
          exact SyncInv_mutexCommit _ tid rid r hI2 hr
      · rw [if_neg hfl] at hr
        exact SyncInv_mutexCommit _ tid rid r hI1 hr
  · intro hr
    cases hg : st.tasks.get? tid with
    | none =>
      rw [sys_semaphore_down_noTid st tid rid hg] at hr
      exact Option.noConfusion hr
    | some t0 =>
      rw [sys_semaphore_down_eq st tid rid t0 hg] at hr
      have hI1 : SyncInv (semAdjState st t0 tid rid) :=
        SyncInv_set_need st tid t0 _ hg rfl rfl hI
      by_cases hfl : (semAdjState st t0 tid rid).use_dead_lock = true
      · rw [if_pos hfl] at hr
        have hI2 := SyncInv_sScan _ hI1
        by_cases hany : (detect (semAdjState st t0 tid rid).s_available
            ((semAdjState st t0 tid rid).tasks.map sView)).finish.any
            (fun x => x == false) = true
        · rw [if_pos hany] at hr
          obtain ⟨t, n, hq, hneedq, hreq⟩ := semRollback_inv _ tid rid r hr
          rw [hreq]
          exact SyncInv_set_need _ tid t _ hq rfl rfl hI2
        · rw [if_neg hany] at hr
          exact SyncInv_semCommit _ tid rid r hI2 hr
      · rw [if_neg hfl] at hr
        exact SyncInv_semCommit _ tid rid r hI1 hr

/-- One-task state holding mutex 0, with semaphore 0 free, used to
witness C4. -/
def c4state : ProcState :=
  ⟨[0], [1], false, [⟨[0], [1], [0], [0]⟩], [some true], [some 1], []⟩

/-- Witness for C4: unlocking mutex 0 on `c4state` keeps the invariant. -/
theorem c4_conservation_witness :
    SyncInv (SysResult.state
      ⟨0, true, ⟨[1], [1], false, [⟨[0], [0], [0], [0]⟩], [some true], [some 1], []⟩⟩) :=
  (c4_conservation c4state 0 0
      ⟨0, true, ⟨[1], [1], false, [⟨[0], [0], [0], [0]⟩], [some true], [some 1], []⟩⟩
      true 1 (by unfold SyncInv; decide)).2.1 (by decide)

/-! ### Claim C2 -/

/-- State for the C2 counterexample: one semaphore with one unit, held by
task 1, detection on.  Task 0's request is safe (task 1 can finish and
release), yet `s_available[0] = 0`. -/
def c2state : ProcState :=
  ⟨[], [0], true, [⟨[], [], [0], [0]⟩, ⟨[], [], [0], [1]⟩], [], [some 1], []⟩

/-- C2 counterexample: on `c2state` the safety check succeeds (all tasks
finish) and detection is enabled, yet the request is NOT committed: the
caller's speculative need increment persists (need goes 0 to 1 net), its
allocation stays 0 and the available entry stays 0, while `down()` is
still invoked.  This refutes the claim that a successful safety check
commits unconditionally. -/
theorem c2_counterexample :
    c2state.use_dead_lock = true ∧
    (detect (semAdjState c2state ⟨[], [], [0], [0]⟩ 0 0).s_available
        ((semAdjState c2state ⟨[], [], [0], [0]⟩ 0 0).tasks.map sView)).finish
      = [true, true] ∧
    sys_semaphore_down c2state 0 0 = some ⟨0, true,
      ⟨[], [0], true, [⟨[], [], [1], [0]⟩, ⟨[], [], [0], [1]⟩], [], [some 1], []⟩⟩ ∧
    taskS_need c2state 0 0 = 0 ∧
    taskS_need (⟨[], [0], true, [⟨[], [], [1], [0]⟩, ⟨[], [], [0], [1]⟩],
      [], [some 1], []⟩ : ProcState) 0 0 = 1 ∧
    taskS_alloc (⟨[], [0], true, [⟨[], [], [1], [0]⟩, ⟨[], [], [0], [1]⟩],
      [], [some 1], []⟩ : ProcState) 0 0 = taskS_alloc c2state 0 0 ∧
    (⟨[], [0], true, [⟨[], [], [1], [0]⟩, ⟨[], [], [0], [1]⟩],
      [], [some 1], []⟩ : ProcState).s_available = c2state.s_available := by
  decide

/-- Everything the `sys_semaphore_down` commit block does, including its
`if s_available[sem_id] > 0` guard. -/
theorem semCommit_effect (stC : ProcState) (tid sid : Nat) (r : SysResult)
    (h : semCommit stC tid sid = some r) :
    r.ret = 0 ∧ r.invoked = true ∧
    ((stC.s_available.getD sid 0 = 0 ∧ r.state = stC) ∨
     (0 < stC.s_available.getD sid 0 ∧
      taskS_need r.state tid sid + 1 = taskS_need stC tid sid ∧
      taskS_alloc r.state tid sid = taskS_alloc stC tid sid + 1 ∧
      r.state.s_available.getD sid 0 + 1 = stC.s_available.getD sid 0)) := by
  obtain ⟨t, hq, hc⟩ := semCommit_inv stC tid sid r h
  have hlt : tid < stC.tasks.length := lt_of_getQ_eq_some _ _ _ hq
  have hgd : stC.tasks.getD tid noTask = t := getD_eq_of_getQ _ _ _ _ hq
  rcases hc with ⟨hv, -, hreq⟩ | ⟨n, v, b, hv, hn, hb, hreq⟩
  · subst hreq
    exact ⟨rfl, rfl, Or.inl ⟨getD_eq_of_getQ _ _ _ _ hv, rfl⟩⟩
  · subst hreq
    have havl : sid < stC.s_available.length := lt_of_getQ_eq_some _ _ _ hv
    have hav : stC.s_available.getD sid 0 = v + 1 := getD_eq_of_getQ _ _ _ _ hv
    have hnlt : sid < t.s_need.length := lt_of_getQ_eq_some _ _ _ hn
    have hnv : t.s_need.getD sid 0 = n + 1 := getD_eq_of_getQ _ _ _ _ hn
    refine ⟨rfl, rfl, Or.inr ⟨by omega, ?_, ?_, ?_⟩⟩
    · dsimp only [taskS_need]
      rw [getD_set_self _ _ _ _ hlt, hgd, hnv]
      dsimp only
      rw [getD_set_self _ _ _ _ hnlt]
    · dsimp only [taskS_alloc]
      rw [getD_set_self _ _ _ _ hlt, hgd]
      dsimp only
      rw [getD_adjust_self]
    · dsimp only
      rw [getD_set_self _ _ _ _ havl, hav]

/-- C2 amended: whenever `sys_semaphore_down` grants the request
(returns 0, i.e. the safety check succeeded or detection is disabled),
the real mechanism's `down()` is invoked, and the bookkeeping commit
(need - 1, allocation + 1, available - 1) happens if and only if the
process's `s_available[sem_id]` is positive at commit time; when it is
zero, only the speculative need increment persists. -/
theorem c2_commit_guarded (st : ProcState) (tid sid : Nat) (r : SysResult)
    (hr : sys_semaphore_down st tid sid = some r) (hret : r.ret = 0) :
    r.invoked = true ∧
    ((st.s_available.getD sid 0 = 0 ∧
      taskS_need r.state tid sid = taskS_need st tid sid + 1 ∧
      (∀ t i, taskS_alloc r.state t i = taskS_alloc st t i) ∧
      r.state.s_available = st.s_available) ∨
     (0 < st.s_available.getD sid 0 ∧
      taskS_need r.state tid sid = taskS_need st tid sid ∧
      taskS_alloc r.state tid sid = taskS_alloc st tid sid + 1 ∧
      r.state.s_available.getD sid 0 + 1 = st.s_available.getD sid 0)) := by
  cases hg : st.tasks.get? tid with
  | none =>
    rw [sys_semaphore_down_noTid st tid sid hg] at hr
    exact Option.noConfusion hr
  | some t0 =>
    rw [sys_semaphore_down_eq st tid sid t0 hg] at hr
    obtain ⟨hvsa, -, -, -, hvtid, -⟩ := semAdjState_views st t0 tid sid hg
    have hsav1 : (semAdjState st t0 tid sid).s_available = st.s_available := rfl
    by_cases hfl : (semAdjState st t0 tid sid).use_dead_lock = true
    · rw [if_pos hfl] at hr
      by_cases hany : (detect (semAdjState st t0 tid sid).s_available
          ((semAdjState st t0 tid sid).tasks.map sView)).finish.any
          (fun x => x == false) = true
      · rw [if_pos hany] at hr
        obtain ⟨t, n, hq, hn, hreq⟩ := semRollback_inv _ tid sid r hr
        have hcontra : r.ret = -0xDEAD := by rw [hreq]
        rw [hret] at hcontra
        exact absurd hcontra (by decide)
      · rw [if_neg hany] at hr
        obtain ⟨-, hinv, heff⟩ := semCommit_effect _ tid sid r hr
        obtain ⟨-, hsn, hsa2, -, -, -⟩ := sScanState_tasks (semAdjState st t0 tid sid)
        have hsav2 : (sScanState (semAdjState st t0 tid sid)).s_available
            = st.s_available := rfl
        refine ⟨hinv, ?_⟩
        rcases heff with ⟨hz, hst⟩ | ⟨hpos, hne, hal, hav⟩
        · left
          rw [hsav2] at hz
          refine ⟨hz, ?_, ?_, ?_⟩
          · rw [hst]
            show taskS_need (sScanState (semAdjState st t0 tid sid)) tid sid = _
            rw [hsn tid sid, hvtid]
          · intro t i
            rw [hst]
            show taskS_alloc (sScanState (semAdjState st t0 tid sid)) t i = _
            rw [hsa2 t i, hvsa t i]
          · rw [hst]
            exact hsav2
        · right
          rw [hsav2] at hav
          have h1 : taskS_need (sScanState (semAdjState st t0 tid sid)) tid sid
              = taskS_need st tid sid + 1 := (hsn tid sid).trans hvtid
          rw [h1] at hne
          have h2 : taskS_alloc (sScanState (semAdjState st t0 tid sid)) tid sid
              = taskS_alloc st tid sid := (hsa2 tid sid).trans (hvsa tid sid)
          rw [h2] at hal
          exact ⟨by omega, by omega, hal, hav⟩
    · rw [if_neg hfl] at hr
      obtain ⟨-, hinv, heff⟩ := semCommit_effect _ tid sid r hr
      refine ⟨hinv, ?_⟩
      rcases heff with ⟨hz, hst⟩ | ⟨hpos, hne, hal, hav⟩
      · left
        rw [hsav1] at hz
        refine ⟨hz, ?_, ?_, ?_⟩
        · rw [hst]
          show taskS_need (semAdjState st t0 tid sid) tid sid = _
          exact hvtid
        · intro t i
          rw [hst]
          show taskS_alloc (semAdjState st t0 tid sid) t i = _
          exact hvsa t i
        · rw [hst]
          exact hsav1
      · right
        rw [hsav1] at hav
        rw [hvtid] at hne
        rw [hvsa tid sid] at hal
        exact ⟨by omega, by omega, hal, hav⟩

/-- State used to witness the amended C2: one free semaphore unit. -/
def c2wstate : ProcState :=
  ⟨[], [1], false, [⟨[], [], [0], [0]⟩], [], [some 1], []⟩

/-- Result state of the witnessed `sys_semaphore_down` on `c2wstate`. -/
def c2wres : ProcState :=
  ⟨[], [0], false, [⟨[], [], [0], [1]⟩], [], [some 1], []⟩

/-- Witness for the amended C2: with a unit available the commit is
performed before `down()`. -/
theorem c2_commit_guarded_witness :
    (⟨0, true, c2wres⟩ : SysResult).invoked = true ∧
    ((c2wstate.s_available.getD 0 0 = 0 ∧
      taskS_need c2wres 0 0 = taskS_need c2wstate 0 0 + 1 ∧
      (∀ t i, taskS_alloc c2wres t i = taskS_alloc c2wstate t i) ∧
      c2wres.s_available = c2wstate.s_available) ∨
     (0 < c2wstate.s_available.getD 0 0 ∧
      taskS_need c2wres 0 0 = taskS_need c2wstate 0 0 ∧
      taskS_alloc c2wres 0 0 = taskS_alloc c2wstate 0 0 + 1 ∧
      c2wres.s_available.getD 0 0 + 1 = c2wstate.s_available.getD 0 0)) :=
  c2_commit_guarded c2wstate 0 0 ⟨0, true, c2wres⟩ (by decide) rfl

/-! ### Claim C5 -/

/-- Initial two-task state for the C5 trace: nothing created yet. -/
def c5s0 : ProcState :=
  ⟨[], [], false, [⟨[], [], [], []⟩, ⟨[], [], [], []⟩], [], [], []⟩

/-- State after `sys_enable_deadlock_detect 1`. -/
def c5s1 : ProcState :=
  ⟨[], [], true, [⟨[], [], [], []⟩, ⟨[], [], [], []⟩], [], [], []⟩

/-- State after `sys_mutex_create` (id 0, one unit available). -/
def c5s2 : ProcState :=
  ⟨[1], [], true, [⟨[0], [0], [], []⟩, ⟨[0], [0], [], []⟩], [some true], [], []⟩

/-- State after task 0's successful `sys_mutex_lock 0`: it now holds the
mutex and `m_available[0] = 0`. -/
def c5s3 : ProcState :=
  ⟨[0], [], true, [⟨[0], [1], [], []⟩, ⟨[0], [0], [], []⟩], [some true], [], []⟩

/-- C5 evidence: on the ordinary reachable trace (enable detection,
create one mutex, task 0 locks it, task 1 locks it), task 1's request
passes the safety check (task 0 can finish and release), so the commit
runs `m_available[0] -= 1` with `m_available[0] = 0`: the checked
embedding returns `none` where the Rust code underflows a `usize`.  This
refutes the claim that the commit's available decrement never operates on
a zero value. -/
theorem c5_underflow_trace :
    sys_enable_deadlock_detect c5s0 1 = (0, c5s1) ∧
    sys_mutex_create c5s1 true = (0, c5s2) ∧
    sys_mutex_lock c5s2 0 0 = some ⟨0, true, c5s3⟩ ∧
    c5s3.m_available = [0] ∧
    (detect (mutexAdjState c5s3 ⟨[0], [1], [], []⟩ 1 0).m_available
        ((mutexAdjState c5s3 ⟨[0], [1], [], []⟩ 1 0).tasks.map mView)).finish
      = [true, true] ∧
    c5s3.tasks.get? 1 = some ⟨[0], [0], [], []⟩ ∧
    sys_mutex_lock c5s3 1 0 = none := by
  decide

end SyncSys
